import Mathlib

/-!
# Invoice controller of the car-rental billing backend

A shallow embedding of `src/controllers/invoice.controller.js`: the per-trip generator
`generateInv` with its handler `generateInvoice`, the monthly batch `generateInvoices`, and
the report `getAllInvoices`.

* JavaScript numbers (odometer readings, rates, amounts) are the rationals they denote,
  so that `Math.ceil` is a real operation; dates are time values in milliseconds (`Int`).
  Arithmetic on them is exact, with one exception: the odometer difference under
  `Math.ceil` in `generateInv` is rounded to 53 significant bits as JavaScript does
  (`subDouble`), since there the ceiling makes a rounding in the last digit a whole
  kilometre.
* The document store (Mongoose models `Trip`, `Car`, `Owner`, `Invoice`) is an
  explicit `Store` value that every controller function takes and returns.
* A controller call returns the store it leaves behind together with either its
  result or the failure it raised; the store is returned on failure too, because
  nothing is rolled back.
* The definitions come first: the model of the source, then the notions the theorems are
  stated with (sequences of calls, unique ids, the reference grouping), then sample data.
-/

set_option autoImplicit false

namespace InvoiceController

/-- The error class thrown deliberately by the controllers: `new ApiError(code, message)`. -/
structure ApiError where
  statusCode : Nat
  message : String
deriving DecidableEq, Repr

/-- How a controller call can fail: with an `ApiError` it throws itself, or with the
`TypeError` JavaScript raises when a property of `null`/`undefined` is read. -/
inductive Failure where
  | api (e : ApiError)
  | typeError (what : String)
deriving DecidableEq, Repr

/-- An odometer reading with its date, the shape of `trip.start` and `trip.end`. -/
structure Reading where
  date : Int
  km : ℚ
deriving DecidableEq, Repr

/-- The `rate` of a car: price per day (`rate.date`) and per kilometre (`rate.km`). -/
structure Rate where
  date : ℚ
  km : ℚ
deriving DecidableEq, Repr

/-- An owner document, identified to the batch by `email`. -/
structure Owner where
  _id : Nat
  email : String
deriving DecidableEq, Repr

/-- A car document; `owner` is the reference (owner id) and `trip` the list of trip ids. -/
structure Car where
  _id : Nat
  registrationNo : String
  model : String
  rate : Rate
  currentKm : ℚ
  owner : Nat
  trip : List Nat
deriving DecidableEq, Repr

/-- A trip document; `car` is the reference (car id), `end_` is `trip.end` (`none` for
`null`), `generated` holds the dates pushed by the monthly batch. -/
structure Trip where
  _id : Nat
  car : Nat
  start : Reading
  end_ : Option Reading
  offroad : ℚ
  status : String
  generated : List Int
deriving DecidableEq, Repr

/-- An invoice document. `car` and `offroad` are written by `generateInv` only, the
monthly batch leaves them out. -/
structure Invoice where
  _id : Nat
  owner : Nat
  trip : Nat
  car : Option Nat
  model : String
  dayQty : ℚ
  dayRate : ℚ
  dayAmount : ℚ
  kmQty : ℚ
  kmRate : ℚ
  kmAmount : ℚ
  totalAmount : ℚ
  offroad : Option ℚ
deriving DecidableEq, Repr

/-- The four collections the controller works on. -/
structure Store where
  trips : List Trip
  cars : List Car
  owners : List Owner
  invoices : List Invoice
deriving DecidableEq, Repr

/-- An element of `req.body.end` of `generateInvoice`: `{id, km, date}`. `date` is the time
value of `end.date`, and `none` when `end.date` is falsy (absent, `null`, `0` or `""`), which
is the case `||` replaces by the clock. -/
structure EndReading where
  id : Nat
  km : ℚ
  date : Option Int
deriving DecidableEq, Repr

/-- An element of `req.body.end` of `generateInvoices`: `{email, km}`. -/
structure OwnerReading where
  email : String
  km : ℚ
deriving DecidableEq, Repr

/-- A row of the aggregation in `generateInvoices`: the trip with `carDetails` and
`ownerDetails` joined in. -/
structure TripRow where
  trip : Trip
  carDetails : Car
  ownerDetails : Owner
deriving DecidableEq, Repr

/-- The constant `1000 * 60 * 60 * 24`, one day in milliseconds. -/
def msPerDay : ℚ := 1000 * 60 * 60 * 24

/-- The day count `Math.ceil((to - from) / (1000 * 60 * 60 * 24))` of two dates. -/
def dayCount (fromDate toDate : Int) : ℤ := ⌈((toDate - fromDate : ℤ) : ℚ) / msPerDay⌉

/-- The expression `end.date || Date.now()`: the supplied date, the clock when there is
none. -/
def dateOrNow (date : Option Int) (now : Int) : Int :=
  match date with
  | some d => d
  | none => now

/-- Lookup `Trip.findById(id)`. -/
def Store.findTrip (s : Store) (id : Nat) : Option Trip :=
  s.trips.find? (fun t => t._id = id)

/-- The car a populated reference resolves to (`populate("car")`, `null` when absent). -/
def Store.findCar (s : Store) (id : Nat) : Option Car :=
  s.cars.find? (fun c => c._id = id)

/-- The owner a populated reference resolves to (`populate("owner")`). -/
def Store.findOwner (s : Store) (id : Nat) : Option Owner :=
  s.owners.find? (fun o => o._id = id)

/-- Write a trip document back: `trip.save()`. -/
def Store.saveTrip (s : Store) (t : Trip) : Store :=
  { s with trips := s.trips.map (fun x => if x._id = t._id then t else x) }

/-- Insert a new invoice document (`Invoice.create`, `newInvoice.save()`); the store
hands out the `_id`. -/
def Store.createInvoice (s : Store) (mk : Nat → Invoice) : Invoice × Store :=
  let inv := mk s.invoices.length
  (inv, { s with invoices := s.invoices ++ [inv] })

/-- The thrown `ApiError(401, "end km is not greater than start km")`. -/
def endKmError : Failure := .api ⟨401, "end km is not greater than start km"⟩

/-- The nearest whole number to `x`; of the two nearest when `x` lies half-way between
them, the even one. -/
def roundHalfEven (x : ℚ) : ℤ :=
  let f : ℤ := ⌊x⌋
  if x - f < 1 / 2 then f
  else if 1 / 2 < x - f then f + 1
  else if f % 2 = 0 then f
  else f + 1

/-- The JavaScript number nearest to the exact value `q`: a number carries 53 significant
binary digits, so for `2 ^ k ≤ |q| < 2 ^ (k + 1)` the candidates are the multiples of
`2 ^ (k - 52)`, and the nearest is taken, the one with an even last digit on a tie
(IEEE 754 binary64, round to nearest even). A whole number is returned as it is: every
whole number up to `2 ^ 53` is a JavaScript number, and an odometer does not go beyond.
The exponent is not bounded, so there is no overflow to `Infinity` and no underflow. -/
def roundDouble (q : ℚ) : ℚ :=
  if (⌊q⌋ : ℚ) = q then q
  else
    let ulp : ℚ := 2 ^ (Int.log 2 |q| - 52)
    (roundHalfEven (q / ulp) : ℚ) * ulp

/-- The JavaScript difference `a - b` of two numbers: the exact difference, rounded to a
number. -/
def subDouble (a b : ℚ) : ℚ := roundDouble (a - b)

/-- The function `generateInv(id, end, status)`; `now` is what `Date.now()` returns and
`end_` is `none` when the caller passes `undefined`. The odometer readings are the values
of the JavaScript numbers; their difference under `Math.ceil` is the rounded one,
`subDouble`, because the ceiling turns a rounding in the last digit into a whole
kilometre. -/
def generateInv (s : Store) (now : Int) (id : Nat) (end_ : Option EndReading)
    (status : Bool) : Store × Except Failure Invoice :=
  match s.findTrip id with
  | none => (s, .error (.typeError "trip.start"))
  | some trip =>
    match end_ with
    | none => (s, .error (.typeError "end.km"))
    | some e =>
      if trip.start.km > e.km then (s, .error endKmError)
      else
        let trip1 : Trip := { trip with end_ := some { km := e.km, date := dateOrNow e.date now } }
        let s1 := s.saveTrip trip1
        let endR : Reading := { km := e.km, date := dateOrNow e.date now }
        let dayqty : ℤ := dayCount trip1.start.date endR.date
        let kmqty : ℤ := ⌈subDouble endR.km trip1.start.km⌉
        match s.findCar trip.car with
        | none => (s1, .error (.typeError "trip.car.rate"))
        | some car =>
          let dayAmount : ℚ := ((dayqty : ℚ) - trip1.offroad) * car.rate.date
          let kmAmount : ℚ := (kmqty : ℚ) * car.rate.km
          let total : ℚ := dayAmount + kmAmount
          let (invoice, s2) := s1.createInvoice (fun n =>
            { _id := n
              owner := car.owner
              trip := trip1._id
              car := some car._id
              model := car.model
              dayQty := dayqty
              dayRate := car.rate.date
              dayAmount := dayAmount
              kmQty := kmqty
              kmRate := car.rate.km
              kmAmount := kmAmount
              totalAmount := total
              offroad := some trip1.offroad })
          let trip2 : Trip :=
            if status = false then
              { trip1 with status := "completed", start := { trip1.start with km := e.km } }
            else
              { trip1 with start := { date := endR.date, km := endR.km }, end_ := none, offroad := 0 }
          (s2.saveTrip trip2, .ok invoice)

/-- A car as returned by `Car.find().populate("owner")`: the document with its owner
reference resolved (`none` when no such owner exists). -/
structure CarWithOwner where
  car : Car
  owner : Option Owner
deriving DecidableEq, Repr

/-- Modelled from the spec: the Trip schema (`models/trip.model.js`) is not among the
sources, so what an entry of `generated` holds under `invoiceGenerationMonth` is taken
from the spec, where an entry is the billing-cycle marker of the month it was pushed in:
the month (`getMonth`) of the pushed date. -/
def invoiceGenerationMonth (getMonth : Int → Int) (marker : Int) : Int := getMonth marker

/-- The `$match` stage of the aggregation: no element of `generated` has
`invoiceGenerationMonth` equal to `currentDate.getMonth()`, and `status` is `"ongoing"`. -/
def tripMatch (getMonth : Int → Int) (now : Int) (t : Trip) : Bool :=
  (!(t.generated.any (fun g => decide (invoiceGenerationMonth getMonth g = getMonth now))))
    && decide (t.status = "ongoing")

/-- The aggregation pipeline of `generateInvoices`: `$match`, then `$lookup` and `$unwind`
of the car, then `$lookup` and `$unwind` of the car's owner. -/
def Store.aggregateTrips (s : Store) (getMonth : Int → Int) (now : Int) : List TripRow :=
  (s.trips.filter (tripMatch getMonth now)).flatMap (fun t =>
    (s.cars.filter (fun c => c._id = t.car)).flatMap (fun c =>
      (s.owners.filter (fun o => o._id = c.owner)).map (fun o =>
        { trip := t, carDetails := c, ownerDetails := o })))

/-- The query `Car.find().populate("owner")`. -/
def Store.findCarsPopulated (s : Store) : List CarWithOwner :=
  s.cars.map (fun c => { car := c, owner := s.findOwner c.owner })

/-- The map `new Map(end.map(({ email, km }) => [email, km]))`, as its `get` function:
entries are inserted in order, a later entry replaces an earlier one for the same key. -/
def endMap (end_ : List OwnerReading) : String → Option ℚ :=
  end_.foldl (fun m r => fun k => if k = r.email then some r.km else m k) (fun _ => none)

/-- Write `car.currentKm = km; car.save()` back to the store. -/
def Store.setCurrentKm (s : Store) (id : Nat) (km : ℚ) : Store :=
  { s with cars := s.cars.map (fun x => if x._id = id then { x with currentKm := km } else x) }

/-- The bulk update `Trip.updateMany({ _id: { $in: tripIds } }, { $push: { generated: now } })`. -/
def Store.pushGenerated (s : Store) (tripIds : List Nat) (now : Int) : Store :=
  { s with trips := s.trips.map (fun t =>
      if t._id ∈ tripIds then { t with generated := t.generated ++ [now] } else t) }

/-- The thrown `ApiError(404, "Car not found.")`. -/
def carNotFound : Failure := .api ⟨404, "Car not found."⟩

/-- The thrown `ApiError(404, "Trip not found.")`. -/
def tripNotFound : Failure := .api ⟨404, "Trip not found."⟩

/-- The thrown `ApiError(400, ...)` for an owner without an end reading. -/
def endKmMissing (email : String) : Failure :=
  .api ⟨400, "End kilometer not provided for owner with email " ++ email ++ "."⟩

/-- The body of the `for (const trip of trips)` loop of `generateInvoices`. -/
def batchStep (cars : List CarWithOwner) (now : Int) (em : String → Option ℚ)
    (s : Store) (row : TripRow) : Store × Except Failure Invoice :=
  let car := row.carDetails
  match cars.find? (fun c => c.car._id = car._id) with
  | none => (s, .error carNotFound)
  | some carWithOwner =>
    let days : ℤ := dayCount row.trip.start.date now
    match carWithOwner.owner with
    | none => (s, .error (.typeError "owner.email"))
    | some owner =>
      match em owner.email with
      | none => (s, .error (endKmMissing owner.email))
      | some endKm =>
        if endKm = 0 then (s, .error (endKmMissing owner.email))
        else
          let dayAmount : ℚ := (days : ℚ) * car.rate.date
          let kmAmount : ℚ := (endKm - row.trip.start.km) * car.rate.km
          let totalAmount : ℚ := dayAmount + kmAmount
          match s.findTrip row.trip._id with
          | none => (s, .error tripNotFound)
          | some tripDocument =>
            let s1 := s.saveTrip { tripDocument with end_ := some { date := now, km := endKm } }
            let (newInvoice, s2) := s1.createInvoice (fun n =>
              { _id := n
                owner := owner._id
                trip := row.trip._id
                car := none
                model := car.model
                dayQty := days
                dayRate := car.rate.date
                dayAmount := dayAmount
                kmQty := endKm - row.trip.start.km
                kmRate := car.rate.km
                kmAmount := kmAmount
                totalAmount := totalAmount
                offroad := none })
            (s2.setCurrentKm carWithOwner.car._id endKm, .ok newInvoice)

/-- The loop `for (const trip of trips)`; `acc` is `generatedInvoices`. The first failure
ends the loop and leaves the store as written so far. -/
def batchLoop (cars : List CarWithOwner) (now : Int) (em : String → Option ℚ) :
    Store → List TripRow → List Invoice → Store × Except Failure (List Invoice)
  | s, [], acc => (s, .ok acc)
  | s, row :: rest, acc =>
    match batchStep cars now em s row with
    | (s1, .error f) => (s1, .error f)
    | (s1, .ok inv) => batchLoop cars now em s1 rest (acc ++ [inv])

/-- The handler `generateInvoices`; `now` is `new Date()`, `getMonth` is
`Date.prototype.getMonth` and `end_` is `req.body.end` (`none` when absent). -/
def generateInvoices (getMonth : Int → Int) (s : Store) (now : Int)
    (end_ : Option (List OwnerReading)) : Store × Except Failure (List Invoice) :=
  let cars := s.findCarsPopulated
  if cars.isEmpty then (s, .error (.api ⟨404, "No cars found."⟩))
  else
    let trips := s.aggregateTrips getMonth now
    if trips.isEmpty then (s, .error (.api ⟨404, "No trips found to generate invoices."⟩))
    else
      match end_ with
      | none => (s, .error (.api ⟨400, "End kilometers are required."⟩))
      | some e =>
        if e.isEmpty then (s, .error (.api ⟨400, "End kilometers are required."⟩))
        else
          match batchLoop cars now (endMap e) s trips [] with
          | (s1, .error f) => (s1, .error f)
          | (s1, .ok generatedInvoices) =>
            (s1.pushGenerated (trips.map (fun r => r.trip._id)) now, .ok generatedInvoices)

/-- The value `endKm` of the loop body of `generateInvoices` for a row: the reading kept
under the email of the owner of the car found for the row; `none` when the car, its owner or
the reading is missing. -/
def endKmOf (cars : List CarWithOwner) (em : String → Option ℚ) (row : TripRow) : Option ℚ :=
  match cars.find? (fun c => c.car._id = row.carDetails._id) with
  | none => none
  | some carWithOwner =>
    match carWithOwner.owner with
    | none => none
    | some owner => em owner.email

/-! ## The handler `generateInvoice` -/

/-- The loop `for (const trip of car.trip)` of `generateInvoice`: `tripend` is
`end.filter((t) => t.id === trip)[0]` (`none` when no element matches), `i` is the number of
the iteration, `clock i` what `Date.now()` returns in it, and `invoices` the array built so
far. The first failure of `generateInv` ends the loop. -/
def generateInvoiceLoop (clock : Nat → Int) (status : Bool) (end_ : List EndReading) :
    Store → Nat → List Nat → List Invoice → Store × Except Failure (List Invoice)
  | s, _, [], invoices => (s, .ok invoices)
  | s, i, trip :: rest, invoices =>
    let tripend := (end_.filter (fun t => t.id = trip)).head?
    match generateInv s (clock i) trip tripend status with
    | (s1, .error f) => (s1, .error f)
    | (s1, .ok invoice) =>
      generateInvoiceLoop clock status end_ s1 (i + 1) rest (invoices ++ [invoice])

/-- The handler `generateInvoice`: `carno`, `status` and `end_` are the fields of `req.body`;
a car that `Car.findOne` does not find makes `car.trip` a `TypeError`. -/
def generateInvoice (clock : Nat → Int) (s : Store) (carno : String) (status : Bool)
    (end_ : List EndReading) : Store × Except Failure (List Invoice) :=
  match s.cars.find? (fun c => c.registrationNo = carno) with
  | none => (s, .error (.typeError "car.trip"))
  | some car => generateInvoiceLoop clock status end_ s 0 car.trip []

/-! ## The report `getAllInvoices` -/

/-- An invoice as returned by `Invoice.find().populate("owner")`: the document with its
owner reference resolved (`none` for `null`, when no such owner exists). -/
structure PopulatedInvoice where
  invoice : Invoice
  owner : Option Owner
deriving DecidableEq, Repr

/-- The object pushed for an invoice into an `invoice` array of the report. -/
structure InvoiceLine where
  invoiceId : Nat
  model : String
  dayQty : ℚ
  dayRate : ℚ
  dayAmount : ℚ
  kmQty : ℚ
  kmRate : ℚ
  kmAmount : ℚ
  totalAmount : ℚ
  invoiceDate : Int
deriving DecidableEq, Repr

/-- An element of the `invoices` array of an owner entry: `{model, invoice: [...]}`. -/
structure ModelEntry where
  model : String
  invoice : List InvoiceLine
deriving DecidableEq, Repr

/-- An element of `formattedInvoices`: `{owner, invoices: [...]}`. -/
structure OwnerEntry where
  owner : Option Owner
  invoices : List ModelEntry
deriving DecidableEq, Repr

/-- The object literal `{invoiceId: invoice._id, model: invoice.model, ...}`, written three
times in the source. `invoiceDate` is the date the Invoice schema stores with a document;
that schema is not among the sources, so the stored date is a parameter. -/
def invoiceLine (invoiceDate : Invoice → Int) (invoice : Invoice) : InvoiceLine :=
  { invoiceId := invoice._id
    model := invoice.model
    dayQty := invoice.dayQty
    dayRate := invoice.dayRate
    dayAmount := invoice.dayAmount
    kmQty := invoice.kmQty
    kmRate := invoice.kmRate
    kmAmount := invoice.kmAmount
    totalAmount := invoice.totalAmount
    invoiceDate := invoiceDate invoice }

/-- The call `formattedInvoices.findIndex((ownerInvoices) => ownerInvoices.owner._id.toString()
=== invoice.owner._id.toString())`: the index of the first entry with the invoice's owner
id, `none` for `-1`. The callback reads `_id` of both owners, so it raises a `TypeError` on
the first entry it visits when that entry's owner or the invoice's owner is `null`. -/
def findOwnerIndex (invoiceOwner : Option Owner) :
    List OwnerEntry → Except Failure (Option Nat)
  | [] => .ok none
  | ownerInvoices :: rest =>
    match ownerInvoices.owner, invoiceOwner with
    | some o1, some o2 =>
      if o1._id = o2._id then .ok (some 0)
      else
        match findOwnerIndex invoiceOwner rest with
        | .ok (some i) => .ok (some (i + 1))
        | r => r
    | _, _ => .error (.typeError "owner._id")

/-- What the body of `allInvoices.forEach` does to the owner entry at `ownerIndex`: push a
new model entry, or push the line to the entry of the invoice's model. -/
def addToOwner (invoiceDate : Invoice → Int) (invoice : Invoice) (entry : OwnerEntry) :
    OwnerEntry :=
  match entry.invoices.findIdx? (fun inv => inv.model = invoice.model) with
  | none =>
    { entry with
      invoices := entry.invoices ++
        [{ model := invoice.model, invoice := [invoiceLine invoiceDate invoice] }] }
  | some modelIndex =>
    { entry with
      invoices := entry.invoices.modify
        (fun m => { m with invoice := m.invoice ++ [invoiceLine invoiceDate invoice] })
        modelIndex }

/-- The body of `allInvoices.forEach((invoice) => ...)`, from `formattedInvoices` before to
`formattedInvoices` after. -/
def formatStep (invoiceDate : Invoice → Int) (formattedInvoices : List OwnerEntry)
    (p : PopulatedInvoice) : Except Failure (List OwnerEntry) :=
  match findOwnerIndex p.owner formattedInvoices with
  | .error f => .error f
  | .ok none =>
    .ok (formattedInvoices ++
      [{ owner := p.owner
         invoices := [{ model := p.invoice.model
                        invoice := [invoiceLine invoiceDate p.invoice] }] }])
  | .ok (some ownerIndex) =>
    .ok (formattedInvoices.modify (addToOwner invoiceDate p.invoice) ownerIndex)

/-- The grouping part of `getAllInvoices`, on the list `allInvoices`: the 404 check and the
`forEach` pass that builds `formattedInvoices` from `[]`. -/
def formatInvoices (invoiceDate : Invoice → Int) (allInvoices : List PopulatedInvoice) :
    Except Failure (List OwnerEntry) :=
  if allInvoices.isEmpty then .error (.api ⟨404, "No invoices found in the database."⟩)
  else allInvoices.foldlM (formatStep invoiceDate) []

/-- The query `Invoice.find().populate("owner")`. -/
def Store.findInvoicesPopulated (s : Store) : List PopulatedInvoice :=
  s.invoices.map (fun i => { invoice := i, owner := s.findOwner i.owner })

/-- The handler `getAllInvoices`. -/
def getAllInvoices (invoiceDate : Invoice → Int) (s : Store) :
    Except Failure (List OwnerEntry) :=
  formatInvoices invoiceDate s.findInvoicesPopulated

/-! ## Sequences of calls and store well-formedness -/

/-- A call of one of the two generators: `perTrip` is `generateInv`, `monthly` is
`generateInvoices`, each with the clock value it runs at. -/
inductive Call where
  | perTrip (now : Int) (id : Nat) (end_ : Option EndReading) (status : Bool)
  | monthly (now : Int) (end_ : Option (List OwnerReading))
deriving DecidableEq, Repr

/-- The store a call leaves behind. -/
def Call.run (getMonth : Int → Int) (s : Store) : Call → Store
  | .perTrip now id end_ status => (generateInv s now id end_ status).1
  | .monthly now end_ => (generateInvoices getMonth s now end_).1

/-- The store a sequence of calls leaves behind, run one after the other. -/
def runCalls (getMonth : Int → Int) (s : Store) (calls : List Call) : Store :=
  calls.foldl (Call.run getMonth) s

/-- Consecutive continuing calls `generateInv(id, end, true)` on one trip, one per reading,
each paired with the clock value it runs at; the outcomes are collected in call order. -/
def continuingCalls (id : Nat) :
    Store → List (Int × EndReading) → Store × List (Except Failure Invoice)
  | s, [] => (s, [])
  | s, (now, e) :: rest =>
    let r := generateInv s now id (some e) true
    let rs := continuingCalls id r.1 rest
    (rs.1, r.2 :: rs.2)

/-- Document ids are unique within the `cars` and the `owners` collection, as MongoDB keeps
`_id` unique. -/
def Store.uniqueIds (s : Store) : Prop :=
  (s.cars.map (fun c => c._id)).Nodup ∧ (s.owners.map (fun o => o._id)).Nodup

instance (s : Store) : Decidable s.uniqueIds := by
  unfold Store.uniqueIds
  infer_instance

/-- Trip ids are unique within the `trips` collection, as MongoDB keeps `_id` unique. -/
def Store.uniqueTripIds (s : Store) : Prop := (s.trips.map (fun t => t._id)).Nodup

instance (s : Store) : Decidable s.uniqueTripIds := by
  unfold Store.uniqueTripIds
  infer_instance

/-! ## Reference grouping -/

/-- The distinct elements of a list, each at the place of its first occurrence. -/
def firstSeen {α : Type} [DecidableEq α] : List α → List α
  | [] => []
  | a :: l => a :: (firstSeen l).filter (fun x => x ≠ a)

/-- The owner id an invoice is grouped under. -/
def PopulatedInvoice.ownerId (p : PopulatedInvoice) : Option Nat := p.owner.map (fun o => o._id)

/-- Reference grouping, innermost level: the lines of the invoices with owner id `k` and
model `m`, in input order. -/
def referenceLines (invoiceDate : Invoice → Int) (all : List PopulatedInvoice)
    (k : Option Nat) (m : String) : List InvoiceLine :=
  (all.filter (fun p => p.ownerId = k ∧ p.invoice.model = m)).map
    (fun p => invoiceLine invoiceDate p.invoice)

/-- Reference grouping, middle level: one entry per distinct model among the invoices with
owner id `k`, in first-seen order. -/
def referenceModels (invoiceDate : Invoice → Int) (all : List PopulatedInvoice)
    (k : Option Nat) : List ModelEntry :=
  (firstSeen ((all.filter (fun p => p.ownerId = k)).map (fun p => p.invoice.model))).map
    (fun m => { model := m, invoice := referenceLines invoiceDate all k m })

/-- Reference grouping, the entry of owner id `k`: the owner of the first invoice with that
id, and the model entries of that id. -/
def referenceEntry (invoiceDate : Invoice → Int) (all : List PopulatedInvoice)
    (k : Option Nat) : OwnerEntry :=
  { owner := (all.find? (fun p => p.ownerId = k)).bind (fun p => p.owner)
    invoices := referenceModels invoiceDate all k }

/-- Reference group-by on (owner, model), written from the specification to compare
`formatInvoices` with: one entry per distinct owner id, in first-seen order; in it one entry
per distinct model of that owner's invoices, in first-seen order; in it the lines of the
invoices of that owner and model, in input order. -/
def referenceGrouping (invoiceDate : Invoice → Int) (all : List PopulatedInvoice) :
    List OwnerEntry :=
  (firstSeen (all.map (fun p => p.ownerId))).map (referenceEntry invoiceDate all)

/-- All lines of a report, entry by entry. -/
def reportLines (report : List OwnerEntry) : List InvoiceLine :=
  report.flatMap (fun g => g.invoices.flatMap (fun m => m.invoice))

/-! ## Sample data -/

/-- A sample owner. -/
def exOwner : Owner := { _id := 1, email := "asha@example.org" }

/-- A sample car of `exOwner`: 100 per day, 10 per kilometre. -/
def exCar : Car :=
  { _id := 7, registrationNo := "KA01AB1234", model := "Swift", rate := { date := 100, km := 10 },
    currentKm := 1000, owner := 1, trip := [3] }

/-- A sample ongoing trip on `exCar`, started at time 1700000000000 with 1000 km on the
odometer and one offroad day. -/
def exTrip : Trip :=
  { _id := 3, car := 7, start := { date := 1700000000000, km := 1000 }, end_ := none,
    offroad := 1, status := "ongoing", generated := [] }

/-- A sample store holding `exTrip`, `exCar` and `exOwner`, and no invoice yet. -/
def exStore : Store := { trips := [exTrip], cars := [exCar], owners := [exOwner], invoices := [] }

/-- A sample clock value: one day after the start of `exTrip`. -/
def exNow : Int := 1700086400000

/-- A sample end reading for `exTrip`: 1250 km, five days after the start. -/
def exEnd : EndReading := { id := 3, km := 1250, date := some 1700432000000 }

/-- The invoice `generateInv` creates from `exStore` and `exEnd`. -/
def exInvoice : Invoice :=
  { _id := 0, owner := 1, trip := 3, car := some 7, model := "Swift", dayQty := 5, dayRate := 100,
    dayAmount := 400, kmQty := 250, kmRate := 10, kmAmount := 2500, totalAmount := 2900,
    offroad := some 1 }

/-- A sample trip as `exTrip`, started with the reading 0.7 km: the number stored for 0.7
is `3152519739159347 / 2 ^ 52`. -/
def exFractionTrip : Trip :=
  { exTrip with start := { date := 1700000000000, km := 3152519739159347 / 4503599627370496 } }

/-- A sample store holding `exFractionTrip`. -/
def exFractionStore : Store := { exStore with trips := [exFractionTrip] }

/-- A sample end reading of 100.7 km for `exFractionTrip`: the number parsed from 100.7 is
`7086132538690765 / 2 ^ 46`. -/
def exFractionEnd : EndReading :=
  { id := 3, km := 7086132538690765 / 70368744177664, date := some 1700432000000 }

/-- A sample end reading for `exTrip` dated one day before the trip started. -/
def exEarlyEnd : EndReading := { id := 3, km := 1250, date := some 1699913600000 }

/-- A sample `getMonth`: months of thirty days counted from time 0. -/
def exGetMonth (t : Int) : Int := (t / 2592000000) % 12

/-- A sample owner reading for `exOwner` below the start odometer of `exTrip`. -/
def exLowReading : OwnerReading := { email := "asha@example.org", km := 900 }

/-- A sample owner reading for `exOwner`. -/
def exReading : OwnerReading := { email := "asha@example.org", km := 1200 }

/-- The row of the aggregation for `exTrip` in `exStore`. -/
def exRow : TripRow := { trip := exTrip, carDetails := exCar, ownerDetails := exOwner }

/-- The invoice the batch creates from `exStore` at `exNow` with `exReading`. -/
def exBatchInvoice : Invoice :=
  { _id := 0, owner := 1, trip := 3, car := none, model := "Swift", dayQty := 1, dayRate := 100,
    dayAmount := 100, kmQty := 200, kmRate := 10, kmAmount := 2000, totalAmount := 2100,
    offroad := none }

/-- A sample owner reading for an owner who has no car in `exStore`. -/
def exOtherReading : OwnerReading := { email := "ravi@example.org", km := 5000 }

/-- Two sample readings for `exTrip`, taken at 1250 km and at 1400 km. -/
def exReadings : List (Int × EndReading) :=
  [(1700432000000, { id := 3, km := 1250, date := none }),
   (1700864000000, { id := 3, km := 1400, date := none })]

/-- Two sample owner readings for `exOwner`: 1200 km first, then 0 km. -/
def exZeroLast : List OwnerReading :=
  [{ email := "asha@example.org", km := 1200 }, { email := "asha@example.org", km := 0 }]

/-- A second sample owner. -/
def exOwner2 : Owner := { _id := 2, email := "ravi@example.org" }

/-- A sample car of `exOwner2`. -/
def exCar2 : Car :=
  { _id := 8, registrationNo := "MH12CD5678", model := "Baleno", rate := { date := 120, km := 12 },
    currentKm := 5000, owner := 2, trip := [4] }

/-- A sample ongoing trip on `exCar2`. -/
def exTrip2 : Trip :=
  { _id := 4, car := 8, start := { date := 1700000000000, km := 5000 }, end_ := none,
    offroad := 0, status := "ongoing", generated := [] }

/-- A sample store with two owners, each with one car on one ongoing trip. -/
def exStore2 : Store :=
  { trips := [exTrip, exTrip2], cars := [exCar, exCar2], owners := [exOwner, exOwner2],
    invoices := [] }

/-- The row of the aggregation for `exTrip2` in `exStore2`. -/
def exRow2 : TripRow := { trip := exTrip2, carDetails := exCar2, ownerDetails := exOwner2 }

/-- Three sample invoices of two owners: owner 1 has a Swift and a Baleno invoice, owner 2 a
Swift invoice between them. -/
def exPopulated : List PopulatedInvoice :=
  [{ invoice := exInvoice, owner := some exOwner },
   { invoice := { exInvoice with _id := 1, owner := 2 }, owner := some exOwner2 },
   { invoice := { exInvoice with _id := 2, model := "Baleno" }, owner := some exOwner }]

/-! ## Store lemmas -/

theorem find_map_replace (l : List Trip) (t : Trip) (id : Nat) :
    (l.map (fun x => if x._id = t._id then t else x)).find? (fun x => x._id = id) =
      if id = t._id then (l.find? (fun x => x._id = id)).map (fun _ => t)
      else l.find? (fun x => x._id = id) := by
  induction l with
  | nil => simp
  | cons a l ih =>
    simp only [List.map_cons, List.find?_cons]
    by_cases h1 : a._id = t._id
    · by_cases h2 : id = t._id
      · simp [h1, h2]
      · have h3 : ¬ t._id = id := fun h => h2 h.symm
        have h4 : ¬ a._id = id := fun h => h3 (h1 ▸ h)
        simp [h1, h2, h3, h4, ih]
    · by_cases h2 : a._id = id
      · have h3 : ¬ id = t._id := fun h => h1 (h2.trans h)
        simp [h1, h2, h3]
      · simp [h1, h2, ih]

theorem findTrip_saveTrip (s : Store) (t : Trip) (id : Nat) :
    (s.saveTrip t).findTrip id =
      if id = t._id then (s.findTrip id).map (fun _ => t) else s.findTrip id := by
  simp only [Store.findTrip, Store.saveTrip]
  exact find_map_replace s.trips t id

theorem findTrip_id {s : Store} {id : Nat} {t : Trip} (h : s.findTrip id = some t) :
    t._id = id := by
  have := List.find?_some h
  simpa using this

theorem findTrip_createInvoice (s : Store) (mk : Nat → Invoice) (id : Nat) :
    (s.createInvoice mk).2.findTrip id = s.findTrip id := rfl

theorem saveTrip_invoices (s : Store) (t : Trip) : (s.saveTrip t).invoices = s.invoices := rfl

theorem createInvoice_invoices (s : Store) (mk : Nat → Invoice) :
    (s.createInvoice mk).2.invoices = s.invoices ++ [(s.createInvoice mk).1] := rfl

/-! ## Rounding of the odometer difference -/

/-- A whole number is not moved by the rounding. -/
theorem roundDouble_intCast (z : ℤ) : roundDouble (z : ℚ) = z := by
  simp [roundDouble]

theorem roundHalfEven_nonneg {x : ℚ} (hx : 0 ≤ x) : 0 ≤ roundHalfEven x := by
  have hf : (0 : ℤ) ≤ ⌊x⌋ := Int.floor_nonneg.mpr hx
  unfold roundHalfEven
  simp only
  split_ifs <;> omega

/-- Rounding does not cross zero. -/
theorem roundDouble_nonneg {q : ℚ} (hq : 0 ≤ q) : 0 ≤ roundDouble q := by
  unfold roundDouble
  split_ifs with h
  · exact hq
  · have hu : (0 : ℚ) < 2 ^ (Int.log 2 |q| - 52) := zpow_pos (by norm_num) _
    have := roundHalfEven_nonneg (div_nonneg hq hu.le)
    simp only
    positivity

theorem subDouble_self (a : ℚ) : subDouble a a = 0 := by
  simp [subDouble, roundDouble]

/-- Whole readings subtract exactly. -/
theorem subDouble_intCast (a b : ℤ) : subDouble (a : ℚ) (b : ℚ) = ((a - b : ℤ) : ℚ) := by
  rw [subDouble, ← Int.cast_sub, roundDouble_intCast]

theorem subDouble_nonneg {a b : ℚ} (h : b ≤ a) : 0 ≤ subDouble a b :=
  roundDouble_nonneg (sub_nonneg.mpr h)

theorem log_two_eq {a : ℚ} {k : ℤ} (h1 : (2 : ℚ) ^ k ≤ a) (h2 : a < (2 : ℚ) ^ (k + 1)) :
    Int.log 2 a = k := by
  have ha : 0 < a := lt_of_lt_of_le (zpow_pos (by norm_num) _) h1
  have hle : k ≤ Int.log 2 a := (Int.zpow_le_iff_le_log (by norm_num) ha).mp h1
  have hlt : Int.log 2 a < k + 1 := (Int.lt_zpow_iff_log_lt (by norm_num) ha).mp h2
  omega

theorem roundHalfEven_eq_of_lt {x : ℚ} {z : ℤ} (h1 : (z : ℚ) ≤ x) (h2 : x < z + 1 / 2) :
    roundHalfEven x = z := by
  have hf : ⌊x⌋ = z := Int.floor_eq_iff.mpr ⟨h1, by linarith⟩
  unfold roundHalfEven
  simp only [hf]
  rw [if_pos (by linarith)]

/-- The readings 0.7 and 100.7, as the numbers they are stored as: their exact difference
lies above 100 by less than half a unit in the last digit, so the JavaScript difference is
100 and its ceiling 100, where the ceiling of the exact difference is 101. -/
theorem subDouble_fractional_readings :
    subDouble (7086132538690765 / 70368744177664) (3152519739159347 / 4503599627370496) = 100 ∧
    ⌈subDouble (7086132538690765 / 70368744177664) (3152519739159347 / 4503599627370496)⌉ = 100 ∧
    ⌈(7086132538690765 / 70368744177664 : ℚ) - 3152519739159347 / 4503599627370496⌉ = 101 := by
  have hq : ((7086132538690765 : ℚ) / 70368744177664 - 3152519739159347 / 4503599627370496) =
      450359962737049613 / 4503599627370496 := by norm_num
  have hs : subDouble (7086132538690765 / 70368744177664)
      (3152519739159347 / 4503599627370496) = 100 := by
    rw [subDouble, hq]
    have hfl : ⌊(450359962737049613 / 4503599627370496 : ℚ)⌋ = 100 :=
      Int.floor_eq_iff.mpr ⟨by norm_num, by norm_num⟩
    have hlog : Int.log 2 |(450359962737049613 / 4503599627370496 : ℚ)| = 6 := by
      apply log_two_eq <;> norm_num [abs_of_pos]
    unfold roundDouble
    rw [hfl, if_neg (by norm_num), hlog]
    have hr : roundHalfEven
        ((450359962737049613 / 4503599627370496 : ℚ) / 2 ^ ((6 : ℤ) - 52)) =
        7036874417766400 := by
      apply roundHalfEven_eq_of_lt <;> norm_num
    simp only [hr]
    norm_num
  refine ⟨hs, ?_, ?_⟩
  · rw [hs]
    exact Int.ceil_eq_iff.mpr ⟨by norm_num, by norm_num⟩
  · rw [hq]
    exact Int.ceil_eq_iff.mpr ⟨by norm_num, by norm_num⟩

/-- The readings 0.9999999999999999 and 1000, as the numbers they are stored as: the exact
difference lies above 999 by far less than a unit in the last digit, so the JavaScript
difference is 999, where the ceiling of the exact difference is 1000. -/
theorem subDouble_below_one :
    subDouble 1000 (9007199254740991 / 9007199254740992) = 999 ∧
    ⌈(1000 : ℚ) - 9007199254740991 / 9007199254740992⌉ = 1000 := by
  have hq : ((1000 : ℚ) - 9007199254740991 / 9007199254740992) =
      8998192055486251009 / 9007199254740992 := by norm_num
  constructor
  · rw [subDouble, hq]
    have hfl : ⌊(8998192055486251009 / 9007199254740992 : ℚ)⌋ = 999 :=
      Int.floor_eq_iff.mpr ⟨by norm_num, by norm_num⟩
    have hlog : Int.log 2 |(8998192055486251009 / 9007199254740992 : ℚ)| = 9 := by
      apply log_two_eq <;> norm_num [abs_of_pos]
    unfold roundDouble
    rw [hfl, if_neg (by norm_num), hlog]
    have hr : roundHalfEven
        ((8998192055486251009 / 9007199254740992 : ℚ) / 2 ^ ((9 : ℤ) - 52)) =
        8787296929185792 := by
      apply roundHalfEven_eq_of_lt <;> norm_num
    simp only [hr]
    norm_num
  · rw [hq]
    exact Int.ceil_eq_iff.mpr ⟨by norm_num, by norm_num⟩

/-! ## The per-trip generator `generateInv` -/

/-- A reading below the start odometer is rejected and the store is left as it was. -/
theorem generateInv_reject {s : Store} {id : Nat} {trip : Trip} (now : Int) (e : EndReading)
    (status : Bool) (ht : s.findTrip id = some trip) (hlt : e.km < trip.start.km) :
    generateInv s now id (some e) status = (s, .error endKmError) := by
  simp [generateInv, ht, hlt]

/-- What a call computes when the trip and its car exist and the reading is accepted. -/
theorem generateInv_accept {s : Store} {id : Nat} {trip : Trip} {car : Car} (now : Int)
    (e : EndReading) (status : Bool) (ht : s.findTrip id = some trip)
    (hc : s.findCar trip.car = some car) (hle : trip.start.km ≤ e.km) :
    ∃ inv : Invoice,
      (generateInv s now id (some e) status).2 = .ok inv ∧
      inv.dayQty = ((dayCount trip.start.date (dateOrNow e.date now) : ℤ) : ℚ) ∧
      inv.kmQty = ((⌈subDouble e.km trip.start.km⌉ : ℤ) : ℚ) ∧
      inv.dayAmount = (inv.dayQty - trip.offroad) * car.rate.date ∧
      inv.kmAmount = inv.kmQty * car.rate.km ∧
      inv.totalAmount = inv.dayAmount + inv.kmAmount ∧
      (generateInv s now id (some e) status).1.invoices = s.invoices ++ [inv] ∧
      (generateInv s now id (some e) status).1.findTrip id = some
        (if status = false then
          { trip with
            end_ := some { km := e.km, date := dateOrNow e.date now }
            status := "completed"
            start := { trip.start with km := e.km } }
        else
          { trip with
            start := { date := dateOrNow e.date now, km := e.km }
            end_ := none
            offroad := 0 }) := by
  have hn : ¬ e.km < trip.start.km := not_lt.mpr hle
  have hid := findTrip_id ht
  cases status <;>
    simp [generateInv, ht, hc, hn, findTrip_saveTrip, findTrip_createInvoice, saveTrip_invoices,
      createInvoice_invoices, hid] <;> simp [Store.createInvoice]

/-- A successful call had a stored trip with its car and an accepted reading. -/
theorem generateInv_ok_inv {s : Store} {now : Int} {id : Nat} {end_ : Option EndReading}
    {status : Bool} {inv : Invoice} (hok : (generateInv s now id end_ status).2 = .ok inv) :
    ∃ trip car e, s.findTrip id = some trip ∧ s.findCar trip.car = some car ∧
      end_ = some e ∧ trip.start.km ≤ e.km := by
  unfold generateInv at hok
  cases ht : s.findTrip id with
  | none => simp [ht] at hok
  | some trip =>
    cases end_ with
    | none => simp [ht] at hok
    | some e =>
      by_cases hlt : e.km < trip.start.km
      · simp [ht, hlt] at hok
      · cases hc : s.findCar trip.car with
        | none => simp [ht, hlt, hc] at hok
        | some car => exact ⟨trip, car, e, rfl, hc, rfl, not_lt.mp hlt⟩

/-- The facts of `generateInv_accept`, read off a call known to have succeeded. -/
theorem generateInv_ok_spec {s : Store} {now : Int} {id : Nat} {e : EndReading} {status : Bool}
    {trip : Trip} {car : Car} {inv : Invoice} (ht : s.findTrip id = some trip)
    (hc : s.findCar trip.car = some car)
    (hok : (generateInv s now id (some e) status).2 = .ok inv) :
    trip.start.km ≤ e.km ∧
    inv.dayQty = ((dayCount trip.start.date (dateOrNow e.date now) : ℤ) : ℚ) ∧
    inv.kmQty = ((⌈subDouble e.km trip.start.km⌉ : ℤ) : ℚ) ∧
    inv.dayAmount = (inv.dayQty - trip.offroad) * car.rate.date ∧
    inv.kmAmount = inv.kmQty * car.rate.km ∧
    inv.totalAmount = inv.dayAmount + inv.kmAmount := by
  obtain ⟨trip1, car1, e1, ht1, hc1, he1, hle⟩ := generateInv_ok_inv hok
  have h1 : trip1 = trip := Option.some.inj (ht1.symm.trans ht)
  have h2 : e1 = e := (Option.some.inj he1).symm
  subst h1 h2
  obtain ⟨inv1, hr, hd, hk, hda, hka, htot, -, -⟩ := generateInv_accept now e1 status ht hc hle
  have h3 : inv1 = inv := by
    rw [hr] at hok
    exact Except.ok.inj hok
  subst h3
  exact ⟨hle, hd, hk, hda, hka, htot⟩

/-- The stored trip after a call known to have succeeded. -/
theorem generateInv_ok_trip {s : Store} {now : Int} {id : Nat} {e : EndReading} {status : Bool}
    {trip : Trip} {inv : Invoice} (ht : s.findTrip id = some trip)
    (hok : (generateInv s now id (some e) status).2 = .ok inv) :
    (generateInv s now id (some e) status).1.findTrip id = some
      (if status = false then
        { trip with
          end_ := some { km := e.km, date := dateOrNow e.date now }
          status := "completed"
          start := { trip.start with km := e.km } }
      else
        { trip with
          start := { date := dateOrNow e.date now, km := e.km }
          end_ := none
          offroad := 0 }) := by
  obtain ⟨trip1, car1, e1, ht1, hc1, he1, hle⟩ := generateInv_ok_inv hok
  have h1 : trip1 = trip := Option.some.inj (ht1.symm.trans ht)
  have h2 : e1 = e := (Option.some.inj he1).symm
  subst h1 h2
  obtain ⟨inv1, -, -, -, -, -, -, -, h⟩ := generateInv_accept now e1 status ht hc1 hle
  exact h

/-- The sample call with `status = true` succeeds with `exInvoice`. -/
theorem exStore_generateInv_true :
    (generateInv exStore exNow 3 (some exEnd) true).2 = .ok exInvoice := by
  have hkm : subDouble (1250 : ℚ) 1000 = 250 := by
    have h := subDouble_intCast 1250 1000
    norm_num at h
    exact h
  simp [generateInv, exStore, exTrip, exCar, exEnd, exInvoice, Store.findTrip, Store.findCar,
    Store.saveTrip, Store.createInvoice, dateOrNow, dayCount, msPerDay, hkm]
  norm_num

/-- The sample call with `status = false` succeeds with `exInvoice`. -/
theorem exStore_generateInv_false :
    (generateInv exStore exNow 3 (some exEnd) false).2 = .ok exInvoice := by
  have hkm : subDouble (1250 : ℚ) 1000 = 250 := by
    have h := subDouble_intCast 1250 1000
    norm_num at h
    exact h
  simp [generateInv, exStore, exTrip, exCar, exEnd, exInvoice, Store.findTrip, Store.findCar,
    Store.saveTrip, Store.createInvoice, dateOrNow, dayCount, msPerDay, hkm]
  norm_num

/-- The sample call with the readings 0.7 and 100.7 bills 100 kilometres, as the source
does, not the 101 of the exact difference of the two stored numbers. -/
theorem exFractionStore_generateInv :
    ∃ inv, (generateInv exFractionStore exNow 3 (some exFractionEnd) true).2 = .ok inv ∧
      inv.kmQty = 100 ∧ inv.kmAmount = 1000 ∧
      ⌈exFractionEnd.km - exFractionTrip.start.km⌉ = 101 := by
  have ht : exFractionStore.findTrip 3 = some exFractionTrip := rfl
  have hc : exFractionStore.findCar exFractionTrip.car = some exCar := rfl
  have hle : exFractionTrip.start.km ≤ exFractionEnd.km := by
    norm_num [exFractionTrip, exFractionEnd]
  obtain ⟨inv, hok, -, hk, -, hka, -⟩ := generateInv_accept exNow exFractionEnd true ht hc hle
  have h100 : inv.kmQty = 100 := by
    rw [hk]
    have h := subDouble_fractional_readings.2.1
    simp only [exFractionTrip, exFractionEnd]
    rw [h]
    norm_num
  refine ⟨inv, hok, h100, ?_, subDouble_fractional_readings.2.2⟩
  rw [hka, h100]
  norm_num [exCar]

/-! ## Claims about `generateInv` -/

/-- C1: for every stored trip with its car and every end reading, `generateInv` fails with
the `ApiError` "end km is not greater than start km" exactly when `end.km < trip.start.km`,
and it returns an invoice exactly when `end.km ≥ trip.start.km`. -/
theorem generateInv_rejects_iff_end_km_lt (s : Store) (now : Int) (id : Nat) (e : EndReading)
    (status : Bool) (trip : Trip) (car : Car) (ht : s.findTrip id = some trip)
    (hc : s.findCar trip.car = some car) :
    ((generateInv s now id (some e) status).2 = .error endKmError ↔ e.km < trip.start.km) ∧
    ((∃ inv, (generateInv s now id (some e) status).2 = .ok inv) ↔ trip.start.km ≤ e.km) := by
  rcases lt_or_le e.km trip.start.km with hlt | hle
  · have hr := generateInv_reject now e status ht hlt
    refine ⟨⟨fun _ => hlt, fun _ => by rw [hr]⟩, ⟨?_, fun h => absurd hlt (not_lt.mpr h)⟩⟩
    rintro ⟨inv, hinv⟩
    rw [hr] at hinv
    cases hinv
  · obtain ⟨inv, hr, -⟩ := generateInv_accept now e status ht hc hle
    refine ⟨⟨?_, fun h => absurd h (not_lt.mpr hle)⟩, ⟨fun _ => hle, fun _ => ⟨inv, hr⟩⟩⟩
    intro h
    rw [hr] at h
    cases h

/-- Witness of C1 on the sample store: the reading 1250 km against a start of 1000 km. -/
theorem generateInv_rejects_iff_end_km_lt_witness :
    exStore.findTrip 3 = some exTrip ∧ exStore.findCar exTrip.car = some exCar ∧
    (((generateInv exStore exNow 3 (some exEnd) true).2 = .error endKmError ↔
        exEnd.km < exTrip.start.km) ∧
      ((∃ inv, (generateInv exStore exNow 3 (some exEnd) true).2 = .ok inv) ↔
        exTrip.start.km ≤ exEnd.km)) :=
  ⟨rfl, rfl, generateInv_rejects_iff_end_km_lt exStore exNow 3 exEnd true exTrip exCar rfl rfl⟩

/-- C2: for every successful `generateInv` call the created invoice has
`dayQty = ceil((end.date - start.date) / 86400000)`, where `end.date` is the supplied date,
or the current time when none is supplied, and `dayAmount = (dayQty - trip.offroad) *
car.rate.date`; with `end.date` five days after `start.date`, `offroad = 1` and
`rate.date = 100` this is `dayQty = 5` and `dayAmount = 400`. -/
theorem generateInv_dayQty_dayAmount (s : Store) (now : Int) (id : Nat) (e : EndReading)
    (status : Bool) (trip : Trip) (car : Car) (inv : Invoice) (ht : s.findTrip id = some trip)
    (hc : s.findCar trip.car = some car)
    (hok : (generateInv s now id (some e) status).2 = .ok inv) :
    (∀ d, e.date = some d →
      inv.dayQty = ((⌈((d - trip.start.date : ℤ) : ℚ) / 86400000⌉ : ℤ) : ℚ)) ∧
    (e.date = none →
      inv.dayQty = ((⌈((now - trip.start.date : ℤ) : ℚ) / 86400000⌉ : ℤ) : ℚ)) ∧
    inv.dayAmount = (inv.dayQty - trip.offroad) * car.rate.date ∧
    (∀ D, trip.start.date = D → e.date = some (D + 5 * 86400000) → trip.offroad = 1 →
      car.rate.date = 100 → inv.dayQty = 5 ∧ inv.dayAmount = 400) := by
  obtain ⟨-, hd, -, hda, -, -⟩ := generateInv_ok_spec ht hc hok
  have hms : msPerDay = 86400000 := by norm_num [msPerDay]
  have h1 : ∀ d, e.date = some d →
      inv.dayQty = ((⌈((d - trip.start.date : ℤ) : ℚ) / 86400000⌉ : ℤ) : ℚ) := by
    intro d hdate
    rw [hd, hdate, dayCount, dateOrNow, hms]
  refine ⟨h1, ?_, hda, ?_⟩
  · intro hdate
    rw [hd, hdate, dayCount, dateOrNow, hms]
  · intro D hD hdate hoff hrate
    have h5 : inv.dayQty = 5 := by
      rw [h1 _ hdate, hD]
      have : (((D + 5 * 86400000 - D : ℤ) : ℚ) / 86400000) = ((5 : ℤ) : ℚ) := by
        push_cast
        ring
      rw [this, Int.ceil_intCast]
      norm_num
    refine ⟨h5, ?_⟩
    rw [hda, h5, hoff, hrate]
    norm_num

/-- Witness of C2 on the sample store: five days, one offroad day, 100 per day. -/
theorem generateInv_dayQty_dayAmount_witness :
    exStore.findTrip 3 = some exTrip ∧ exStore.findCar exTrip.car = some exCar ∧
    (generateInv exStore exNow 3 (some exEnd) true).2 = .ok exInvoice ∧
    exInvoice.dayQty = 5 ∧ exInvoice.dayAmount = 400 :=
  ⟨rfl, rfl, exStore_generateInv_true,
    (generateInv_dayQty_dayAmount exStore exNow 3 exEnd true exTrip exCar exInvoice rfl rfl
      exStore_generateInv_true).2.2.2 1700000000000 rfl rfl rfl rfl⟩

/-- C3: for every successful `generateInv` call the created invoice has
`kmQty = ceil(end.km - start.km)`, the difference being the JavaScript one (`subDouble`),
which is never negative, and `kmAmount = kmQty * car.rate.km`, whatever `trip.offroad` is;
for whole readings the difference is the exact one, and with `start.km = 1000`,
`end.km = 1250` and `rate.km = 10` this is `kmQty = 250` and `kmAmount = 2500`. -/
theorem generateInv_kmQty_kmAmount (s : Store) (now : Int) (id : Nat) (e : EndReading)
    (status : Bool) (trip : Trip) (car : Car) (inv : Invoice) (ht : s.findTrip id = some trip)
    (hc : s.findCar trip.car = some car)
    (hok : (generateInv s now id (some e) status).2 = .ok inv) :
    inv.kmQty = ((⌈subDouble e.km trip.start.km⌉ : ℤ) : ℚ) ∧
    0 ≤ inv.kmQty ∧
    inv.kmAmount = ((⌈subDouble e.km trip.start.km⌉ : ℤ) : ℚ) * car.rate.km ∧
    (∀ a b : ℤ, e.km = a → trip.start.km = b → inv.kmQty = e.km - trip.start.km) ∧
    (trip.start.km = 1000 → e.km = 1250 → car.rate.km = 10 →
      inv.kmQty = 250 ∧ inv.kmAmount = 2500) := by
  obtain ⟨hle, -, hk, -, hka, -⟩ := generateInv_ok_spec ht hc hok
  have hint : ∀ a b : ℤ, e.km = a → trip.start.km = b → inv.kmQty = e.km - trip.start.km := by
    intro a b ha hb
    rw [hk, ha, hb, subDouble_intCast, Int.ceil_intCast]
    push_cast
    ring
  refine ⟨hk, ?_, hk ▸ hka, hint, ?_⟩
  · rw [hk]
    exact_mod_cast Int.ceil_nonneg (subDouble_nonneg hle)
  · intro hs he hr
    have h250 : inv.kmQty = 250 := by
      rw [hint 1250 1000 (by rw [he]; norm_num) (by rw [hs]; norm_num), he, hs]
      norm_num
    refine ⟨h250, ?_⟩
    rw [hka, h250, hr]
    norm_num

/-- Witness of C3 on the sample store: 1000 km to 1250 km at 10 per kilometre. -/
theorem generateInv_kmQty_kmAmount_witness :
    exStore.findTrip 3 = some exTrip ∧ exStore.findCar exTrip.car = some exCar ∧
    (generateInv exStore exNow 3 (some exEnd) true).2 = .ok exInvoice ∧
    exInvoice.kmQty = 250 ∧ exInvoice.kmAmount = 2500 :=
  ⟨rfl, rfl, exStore_generateInv_true,
    (generateInv_kmQty_kmAmount exStore exNow 3 exEnd true exTrip exCar exInvoice rfl rfl
      exStore_generateInv_true).2.2.2.2 rfl rfl rfl⟩

/-- C5: after a successful `generateInv` call with `status = true` the stored trip has
`start = {date: the end date just recorded, km: the end km just recorded}`, `end = null`
and `offroad = 0`; its other fields are as before. -/
theorem generateInv_continue_rolls_start (s : Store) (now : Int) (id : Nat) (e : EndReading)
    (trip : Trip) (inv : Invoice) (ht : s.findTrip id = some trip)
    (hok : (generateInv s now id (some e) true).2 = .ok inv) :
    ∃ t, (generateInv s now id (some e) true).1.findTrip id = some t ∧
      t.start = { date := dateOrNow e.date now, km := e.km } ∧ t.end_ = none ∧ t.offroad = 0 ∧
      t._id = trip._id ∧ t.car = trip.car ∧ t.status = trip.status ∧
      t.generated = trip.generated := by
  have h := generateInv_ok_trip ht hok
  exact ⟨_, h, by simp⟩

/-- Witness of C5 on the sample store. -/
theorem generateInv_continue_rolls_start_witness :
    exStore.findTrip 3 = some exTrip ∧
    (generateInv exStore exNow 3 (some exEnd) true).2 = .ok exInvoice ∧
    ∃ t, (generateInv exStore exNow 3 (some exEnd) true).1.findTrip 3 = some t ∧
      t.start = { date := 1700432000000, km := 1250 } ∧ t.end_ = none ∧ t.offroad = 0 := by
  obtain ⟨t, h1, h2, h3, h4, -⟩ :=
    generateInv_continue_rolls_start exStore exNow 3 exEnd exTrip exInvoice rfl
      exStore_generateInv_true
  exact ⟨rfl, exStore_generateInv_true, t, h1, h2, h3, h4⟩

/-- C6: after a successful `generateInv` call with `status = false` the stored trip has
`status = "completed"`, `start.km` equal to the end km just recorded and `end` still set
to the recorded `{km, date}`; `start.date` and `offroad` are as before. -/
theorem generateInv_complete_keeps_end (s : Store) (now : Int) (id : Nat) (e : EndReading)
    (trip : Trip) (inv : Invoice) (ht : s.findTrip id = some trip)
    (hok : (generateInv s now id (some e) false).2 = .ok inv) :
    ∃ t, (generateInv s now id (some e) false).1.findTrip id = some t ∧
      t.status = "completed" ∧ t.start.km = e.km ∧
      t.end_ = some { date := dateOrNow e.date now, km := e.km } ∧
      t.start.date = trip.start.date ∧ t.offroad = trip.offroad ∧
      t._id = trip._id ∧ t.car = trip.car ∧ t.generated = trip.generated := by
  have h := generateInv_ok_trip ht hok
  exact ⟨_, h, by simp⟩

/-- Witness of C6 on the sample store. -/
theorem generateInv_complete_keeps_end_witness :
    exStore.findTrip 3 = some exTrip ∧
    (generateInv exStore exNow 3 (some exEnd) false).2 = .ok exInvoice ∧
    ∃ t, (generateInv exStore exNow 3 (some exEnd) false).1.findTrip 3 = some t ∧
      t.status = "completed" ∧ t.start.km = 1250 ∧
      t.end_ = some { date := 1700432000000, km := 1250 } ∧
      t.start.date = 1700000000000 ∧ t.offroad = 1 := by
  obtain ⟨t, h1, h2, h3, h4, h5, h6, -⟩ :=
    generateInv_complete_keeps_end exStore exNow 3 exEnd exTrip exInvoice rfl
      exStore_generateInv_false
  exact ⟨rfl, exStore_generateInv_false, t, h1, h2, h3, h4, h5, h6⟩

/-! ## The monthly batch `generateInvoices` -/

/-- A failing loop body leaves the store as it found it. -/
theorem batchStep_error {cars : List CarWithOwner} {now : Int} {em : String → Option ℚ}
    {s : Store} {row : TripRow} {f : Failure}
    (h : (batchStep cars now em s row).2 = .error f) :
    (batchStep cars now em s row).1 = s := by
  unfold batchStep at h ⊢
  cases h1 : cars.find? (fun c => c.car._id = row.carDetails._id) with
  | none => simp [h1]
  | some cw =>
    cases h2 : cw.owner with
    | none => simp [h1, h2]
    | some owner =>
      cases h3 : em owner.email with
      | none => simp [h1, h2, h3]
      | some km =>
        by_cases h4 : km = 0
        · simp [h1, h2, h3, h4]
        · cases h5 : s.findTrip row.trip._id with
          | none => simp [h1, h2, h3, h4, h5]
          | some td => simp [h1, h2, h3, h4, h5, Store.createInvoice] at h

/-- What a successful loop body found, created and wrote. -/
theorem batchStep_ok {cars : List CarWithOwner} {now : Int} {em : String → Option ℚ}
    {s : Store} {row : TripRow} {inv : Invoice}
    (h : (batchStep cars now em s row).2 = .ok inv) :
    ∃ cw owner endKm td,
      cars.find? (fun c => c.car._id = row.carDetails._id) = some cw ∧
      cw.owner = some owner ∧ em owner.email = some endKm ∧ endKm ≠ 0 ∧
      s.findTrip row.trip._id = some td ∧
      inv.dayQty = ((dayCount row.trip.start.date now : ℤ) : ℚ) ∧
      inv.kmQty = endKm - row.trip.start.km ∧
      inv.dayAmount = inv.dayQty * row.carDetails.rate.date ∧
      inv.kmAmount = inv.kmQty * row.carDetails.rate.km ∧
      inv.totalAmount = inv.dayAmount + inv.kmAmount ∧
      inv.owner = owner._id ∧ inv.trip = row.trip._id ∧ inv.model = row.carDetails.model ∧
      (batchStep cars now em s row).1 =
        { trips := (s.saveTrip { td with end_ := some { date := now, km := endKm } }).trips
          cars := (s.setCurrentKm cw.car._id endKm).cars
          owners := s.owners
          invoices := s.invoices ++ [inv] } := by
  unfold batchStep at h ⊢
  cases h1 : cars.find? (fun c => c.car._id = row.carDetails._id) with
  | none => simp [h1] at h
  | some cw =>
    cases h2 : cw.owner with
    | none => simp [h1, h2] at h
    | some owner =>
      cases h3 : em owner.email with
      | none => simp [h1, h2, h3] at h
      | some km =>
        by_cases h4 : km = 0
        · simp [h1, h2, h3, h4] at h
        · cases h5 : s.findTrip row.trip._id with
          | none => simp [h1, h2, h3, h4, h5] at h
          | some td =>
            simp [h1, h2, h3, h4, h5, Store.createInvoice] at h
            subst h
            refine ⟨cw, owner, km, td, rfl, h2, h3, h4, rfl, ?_⟩
            simp [h1, h2, h3, h4, h5, Store.createInvoice, Store.saveTrip, Store.setCurrentKm]

theorem batchLoop_cons_error {cars : List CarWithOwner} {now : Int} {em : String → Option ℚ}
    {s : Store} {row : TripRow} {f : Failure} (rest : List TripRow) (acc : List Invoice)
    (h : (batchStep cars now em s row).2 = .error f) :
    batchLoop cars now em s (row :: rest) acc = (s, .error f) := by
  have hs := batchStep_error h
  rw [batchLoop]
  cases hb : batchStep cars now em s row with
  | mk s1 r =>
    rw [hb] at h hs
    simp only at h hs
    subst h hs
    rfl

theorem batchLoop_cons_ok {cars : List CarWithOwner} {now : Int} {em : String → Option ℚ}
    {s : Store} {row : TripRow} {inv : Invoice} (rest : List TripRow) (acc : List Invoice)
    (h : (batchStep cars now em s row).2 = .ok inv) :
    batchLoop cars now em s (row :: rest) acc =
      batchLoop cars now em (batchStep cars now em s row).1 rest (acc ++ [inv]) := by
  rw [batchLoop]
  cases hb : batchStep cars now em s row with
  | mk s1 r =>
    rw [hb] at h
    simp only at h
    subst h
    rfl

/-- The invoices a loop run adds to the store, completed or not: each has
`totalAmount = dayAmount + kmAmount`, and a completed run returns exactly these. -/
theorem batchLoop_invoices (cars : List CarWithOwner) (now : Int) (em : String → Option ℚ) :
    ∀ (rows : List TripRow) (s : Store) (acc : List Invoice),
      ∃ created, (batchLoop cars now em s rows acc).1.invoices = s.invoices ++ created ∧
        (∀ i ∈ created, i.totalAmount = i.dayAmount + i.kmAmount) ∧
        (∀ invs, (batchLoop cars now em s rows acc).2 = .ok invs → invs = acc ++ created) := by
  intro rows
  induction rows with
  | nil =>
    intro s acc
    refine ⟨[], by simp [batchLoop], by simp, ?_⟩
    intro invs h
    simp only [batchLoop] at h
    simpa using (Except.ok.inj h).symm
  | cons row rest ih =>
    intro s acc
    cases hr : (batchStep cars now em s row).2 with
    | error f =>
      rw [batchLoop_cons_error rest acc hr]
      exact ⟨[], by simp, by simp, by intro invs h; cases h⟩
    | ok inv =>
      rw [batchLoop_cons_ok rest acc hr]
      obtain ⟨cw, owner, endKm, td, -, -, -, -, -, -, -, -, -, htot, -, -, -, hs⟩ := batchStep_ok hr
      obtain ⟨created, h1, h2, h3⟩ := ih (batchStep cars now em s row).1 (acc ++ [inv])
      refine ⟨inv :: created, ?_, ?_, ?_⟩
      · rw [h1, hs]
        simp
      · intro i hi
        rcases List.mem_cons.mp hi with rfl | hi
        · exact htot
        · exact h2 i hi
      · intro invs h
        rw [h3 invs h]
        simp

/-- The invoices a loop run adds to the store, completed or not, are those of successful
loop bodies on an initial segment of the rows, in row order; a completed run covers all
rows and returns exactly these after `acc`. -/
theorem batchLoop_created (cars : List CarWithOwner) (now : Int) (em : String → Option ℚ) :
    ∀ (rows : List TripRow) (s : Store) (acc : List Invoice),
      ∃ created, (batchLoop cars now em s rows acc).1.invoices = s.invoices ++ created ∧
        List.Forall₂ (fun row inv => ∃ s0, (batchStep cars now em s0 row).2 = .ok inv)
          (rows.take created.length) created ∧
        (∀ invs, (batchLoop cars now em s rows acc).2 = .ok invs →
          invs = acc ++ created ∧ created.length = rows.length) := by
  intro rows
  induction rows with
  | nil =>
    intro s acc
    refine ⟨[], by simp [batchLoop], List.Forall₂.nil, ?_⟩
    intro invs h
    simp only [batchLoop] at h
    exact ⟨by simpa using (Except.ok.inj h).symm, rfl⟩
  | cons row rest ih =>
    intro s acc
    cases hr : (batchStep cars now em s row).2 with
    | error f =>
      rw [batchLoop_cons_error rest acc hr]
      exact ⟨[], by simp, List.Forall₂.nil, by intro invs h; cases h⟩
    | ok inv =>
      rw [batchLoop_cons_ok rest acc hr]
      obtain ⟨cw, owner, endKm, td, -, -, -, -, -, -, -, -, -, -, -, -, -, hs⟩ := batchStep_ok hr
      obtain ⟨created, h1, h2, h3⟩ := ih (batchStep cars now em s row).1 (acc ++ [inv])
      refine ⟨inv :: created, ?_, ?_, ?_⟩
      · rw [h1, hs]
        simp
      · rw [List.length_cons, List.take_succ_cons]
        exact List.Forall₂.cons ⟨s, hr⟩ h2
      · intro invs h
        obtain ⟨h4, h5⟩ := h3 invs h
        refine ⟨by rw [h4]; simp, by simp [h5]⟩

/-- Every stored trip is still stored after a loop run, changed at most in `end`, which is
then `{date: now, km}` for some reading `km`. -/
theorem batchLoop_findTrip (cars : List CarWithOwner) (now : Int) (em : String → Option ℚ) :
    ∀ (rows : List TripRow) (s : Store) (acc : List Invoice) (id : Nat) (t : Trip),
      s.findTrip id = some t →
      ∃ e, (batchLoop cars now em s rows acc).1.findTrip id = some { t with end_ := e } ∧
        (e = t.end_ ∨ ∃ km, e = some { date := now, km := km }) := by
  intro rows
  induction rows with
  | nil =>
    intro s acc id t ht
    exact ⟨t.end_, by simpa [batchLoop] using ht, Or.inl rfl⟩
  | cons row rest ih =>
    intro s acc id t ht
    cases hr : (batchStep cars now em s row).2 with
    | error f =>
      rw [batchLoop_cons_error rest acc hr]
      exact ⟨t.end_, by simpa using ht, Or.inl rfl⟩
    | ok inv =>
      rw [batchLoop_cons_ok rest acc hr]
      obtain ⟨cw, owner, endKm, td, -, -, -, -, htd, -, -, -, -, -, -, -, -, hs⟩ := batchStep_ok hr
      have hfind : (batchStep cars now em s row).1.findTrip id =
          (s.saveTrip { td with end_ := some { date := now, km := endKm } }).findTrip id := by
        rw [hs]
        rfl
      rw [findTrip_saveTrip] at hfind
      by_cases hid : id = td._id
      · have htd2 : s.findTrip id = some td := by
          rw [hid, findTrip_id htd]
          exact htd
        have heq : td = t := Option.some.inj (htd2.symm.trans ht)
        subst heq
        have hfind2 : (batchStep cars now em s row).1.findTrip id =
            some { td with end_ := some { date := now, km := endKm } } := by
          rw [hfind, if_pos hid, htd2]
          rfl
        obtain ⟨e, h1, h2⟩ := ih _ (acc ++ [inv]) id _ hfind2
        refine ⟨e, h1, ?_⟩
        rcases h2 with h2 | h2
        · exact Or.inr ⟨endKm, h2⟩
        · exact Or.inr h2
      · rw [if_neg hid, ht] at hfind
        exact ih _ (acc ++ [inv]) id t hfind

/-- The three ways a batch run ends: before the loop, with the store untouched; in the
loop, with what the loop wrote; or after the loop and the bulk update of `generated`. -/
theorem generateInvoices_run (getMonth : Int → Int) (s : Store) (now : Int)
    (end_ : Option (List OwnerReading)) :
    (∃ f, generateInvoices getMonth s now end_ = (s, .error f)) ∨
    (∃ e, end_ = some e ∧
      ((∃ f, (batchLoop s.findCarsPopulated now (endMap e) s
              (s.aggregateTrips getMonth now) []).2 = .error f ∧
          generateInvoices getMonth s now end_ =
            ((batchLoop s.findCarsPopulated now (endMap e) s
              (s.aggregateTrips getMonth now) []).1, .error f)) ∨
       (∃ invs, (batchLoop s.findCarsPopulated now (endMap e) s
              (s.aggregateTrips getMonth now) []).2 = .ok invs ∧
          generateInvoices getMonth s now end_ =
            ((batchLoop s.findCarsPopulated now (endMap e) s
              (s.aggregateTrips getMonth now) []).1.pushGenerated
                ((s.aggregateTrips getMonth now).map (fun r => r.trip._id)) now, .ok invs)))) := by
  unfold generateInvoices
  by_cases h1 : s.findCarsPopulated.isEmpty = true
  · exact Or.inl ⟨.api ⟨404, "No cars found."⟩, by simp [h1]⟩
  · by_cases h2 : (s.aggregateTrips getMonth now).isEmpty = true
    · exact Or.inl ⟨.api ⟨404, "No trips found to generate invoices."⟩, by simp [h1, h2]⟩
    · cases end_ with
      | none => exact Or.inl ⟨.api ⟨400, "End kilometers are required."⟩, by simp [h1, h2]⟩
      | some e =>
        by_cases h3 : e.isEmpty = true
        · exact Or.inl ⟨.api ⟨400, "End kilometers are required."⟩, by simp [h1, h2, h3]⟩
        · refine Or.inr ⟨e, rfl, ?_⟩
          cases hb : batchLoop s.findCarsPopulated now (endMap e) s
              (s.aggregateTrips getMonth now) [] with
          | mk s1 r =>
            cases r with
            | error f => exact Or.inl ⟨f, rfl, by simp [h1, h2, h3, hb]⟩
            | ok invs => exact Or.inr ⟨invs, rfl, by simp [h1, h2, h3, hb]⟩

theorem pushGenerated_invoices (s : Store) (ids : List Nat) (now : Int) :
    (s.pushGenerated ids now).invoices = s.invoices := rfl

theorem findTrip_pushGenerated (s : Store) (ids : List Nat) (now : Int) (id : Nat) :
    (s.pushGenerated ids now).findTrip id =
      (s.findTrip id).map (fun t =>
        if t._id ∈ ids then { t with generated := t.generated ++ [now] } else t) := by
  simp only [Store.findTrip, Store.pushGenerated, List.find?_map]
  congr 2
  funext t
  by_cases h : t._id ∈ ids <;> simp [h]

/-- Every stored trip is still stored after a batch run, whatever its outcome, with the
same `start`; its `end` is as before or `{date: now, km}` for some reading `km`. -/
theorem generateInvoices_findTrip (getMonth : Int → Int) (s : Store) (now : Int)
    (end_ : Option (List OwnerReading)) (id : Nat) (t : Trip) (ht : s.findTrip id = some t) :
    ∃ t1, (generateInvoices getMonth s now end_).1.findTrip id = some t1 ∧
      t1._id = t._id ∧ t1.start = t.start ∧
      (t1.end_ = t.end_ ∨ ∃ km, t1.end_ = some { date := now, km := km }) := by
  rcases generateInvoices_run getMonth s now end_ with ⟨f, h⟩ | ⟨e, -, ⟨f, -, h⟩ | ⟨invs, -, h⟩⟩
  · rw [h]
    exact ⟨t, ht, rfl, rfl, Or.inl rfl⟩
  · rw [h]
    obtain ⟨e1, h1, h2⟩ := batchLoop_findTrip s.findCarsPopulated now (endMap e)
      (s.aggregateTrips getMonth now) s [] id t ht
    exact ⟨_, h1, rfl, rfl, h2⟩
  · rw [h]
    obtain ⟨e1, h1, h2⟩ := batchLoop_findTrip s.findCarsPopulated now (endMap e)
      (s.aggregateTrips getMonth now) s [] id t ht
    simp only [findTrip_pushGenerated, h1, Option.map_some']
    refine ⟨_, rfl, ?_, ?_, ?_⟩
    · split <;> rfl
    · split <;> rfl
    · split <;> exact h2

/-! ## Claims about both generators -/

/-- The stored trip after a `generateInv` call, whatever its outcome: untouched, or, for an
accepted reading, with `end` recorded, then completed or rolled over. -/
theorem generateInv_findTrip {s : Store} (now : Int) {id : Nat} (end_ : Option EndReading)
    (status : Bool) {trip : Trip} (ht : s.findTrip id = some trip) :
    (generateInv s now id end_ status).1.findTrip id = some trip ∨
    ∃ e, end_ = some e ∧ trip.start.km ≤ e.km ∧
      ((generateInv s now id end_ status).1.findTrip id =
          some { trip with end_ := some { km := e.km, date := dateOrNow e.date now } } ∨
       (generateInv s now id end_ status).1.findTrip id =
          some { trip with
            end_ := some { km := e.km, date := dateOrNow e.date now }
            status := "completed"
            start := { trip.start with km := e.km } } ∨
       (generateInv s now id end_ status).1.findTrip id =
          some { trip with
            start := { date := dateOrNow e.date now, km := e.km }
            end_ := none
            offroad := 0 }) := by
  have hid := findTrip_id ht
  cases end_ with
  | none => exact Or.inl (by simp [generateInv, ht])
  | some e =>
    by_cases hlt : e.km < trip.start.km
    · exact Or.inl (by simp [generateInv, ht, hlt])
    · refine Or.inr ⟨e, rfl, not_lt.mp hlt, ?_⟩
      cases hc : s.findCar trip.car with
      | none =>
        refine Or.inl ?_
        simp [generateInv, ht, hlt, hc, findTrip_saveTrip, hid]
      | some car =>
        obtain ⟨inv, -, -, -, -, -, -, -, h⟩ :=
          generateInv_accept now e status ht hc (not_lt.mp hlt)
        cases status with
        | false => exact Or.inr (Or.inl (by simpa using h))
        | true => exact Or.inr (Or.inr (by simpa using h))

/-- The invoices a `generateInv` call adds to the store: none when it fails, the returned one
when it succeeds. -/
theorem generateInv_invoices (s : Store) (now : Int) (id : Nat) (end_ : Option EndReading)
    (status : Bool) :
    ((∃ f, (generateInv s now id end_ status).2 = .error f) ∧
      (generateInv s now id end_ status).1.invoices = s.invoices) ∨
    (∃ inv, (generateInv s now id end_ status).2 = .ok inv ∧
      (generateInv s now id end_ status).1.invoices = s.invoices ++ [inv] ∧
      inv.totalAmount = inv.dayAmount + inv.kmAmount) := by
  cases ht : s.findTrip id with
  | none => exact Or.inl (by simp [generateInv, ht])
  | some trip =>
    cases end_ with
    | none => exact Or.inl (by simp [generateInv, ht])
    | some e =>
      by_cases hlt : e.km < trip.start.km
      · exact Or.inl (by simp [generateInv, ht, hlt])
      · cases hc : s.findCar trip.car with
        | none => exact Or.inl (by simp [generateInv, ht, hlt, hc, saveTrip_invoices])
        | some car =>
          obtain ⟨inv, h1, -, -, -, -, h2, h3, -⟩ :=
            generateInv_accept now e status ht hc (not_lt.mp hlt)
          exact Or.inr ⟨inv, h1, h3, h2⟩

/-- C4: every invoice either generator adds to the store, and so every invoice it returns,
has `totalAmount = dayAmount + kmAmount`: the per-trip `generateInv` adds exactly the invoice
it returns, the batch `generateInvoices` exactly the list it returns (and, when it fails in
the loop, the invoices saved until then). -/
theorem totalAmount_eq_dayAmount_add_kmAmount (getMonth : Int → Int) (s : Store) (now : Int) :
    (∀ id end_ status, ∃ created,
      (generateInv s now id end_ status).1.invoices = s.invoices ++ created ∧
      (∀ i ∈ created, i.totalAmount = i.dayAmount + i.kmAmount) ∧
      (∀ inv, (generateInv s now id end_ status).2 = .ok inv → created = [inv])) ∧
    (∀ end_, ∃ created,
      (generateInvoices getMonth s now end_).1.invoices = s.invoices ++ created ∧
      (∀ i ∈ created, i.totalAmount = i.dayAmount + i.kmAmount) ∧
      (∀ invs, (generateInvoices getMonth s now end_).2 = .ok invs → created = invs)) := by
  constructor
  · intro id end_ status
    rcases generateInv_invoices s now id end_ status with ⟨⟨f, hf⟩, h⟩ | ⟨inv, h1, h2, h3⟩
    · refine ⟨[], by simpa using h, by simp, ?_⟩
      intro inv hinv
      rw [hf] at hinv
      cases hinv
    · refine ⟨[inv], h2, by simpa using h3, ?_⟩
      intro inv1 hinv
      rw [h1] at hinv
      rw [Except.ok.inj hinv]
  · intro end_
    rcases generateInvoices_run getMonth s now end_ with
      ⟨f, h⟩ | ⟨e, -, ⟨f, -, h⟩ | ⟨invs, hl, h⟩⟩
    · rw [h]
      exact ⟨[], by simp, by simp, by intro invs hinv; cases hinv⟩
    · rw [h]
      obtain ⟨created, h1, h2, -⟩ := batchLoop_invoices s.findCarsPopulated now (endMap e)
        (s.aggregateTrips getMonth now) s []
      exact ⟨created, h1, h2, by intro invs hinv; cases hinv⟩
    · rw [h]
      obtain ⟨created, h1, h2, h3⟩ := batchLoop_invoices s.findCarsPopulated now (endMap e)
        (s.aggregateTrips getMonth now) s []
      refine ⟨created, by simpa [pushGenerated_invoices] using h1, h2, ?_⟩
      intro invs1 hinv
      have : invs1 = invs := (Except.ok.inj hinv).symm
      rw [this, h3 invs hl]
      simp

/-- C7, as stated, fails on the sample store: a non-continuing `generateInv` call with a
reading dated one day before the trip started leaves `end.date < start.date`, and a batch
run with an owner reading of 900 km leaves `end.km < start.km` on a trip started at 1000 km;
the trip satisfied the invariant before either call. -/
theorem end_before_start_after_call :
    (∀ r, exTrip.end_ = some r → exTrip.start.km ≤ r.km ∧ exTrip.start.date ≤ r.date) ∧
    (∃ t r, (generateInv exStore exNow 3 (some exEarlyEnd) false).1.findTrip 3 = some t ∧
      t.end_ = some r ∧ r.date < t.start.date) ∧
    (∃ t r, (generateInvoices exGetMonth exStore exNow (some [exLowReading])).1.findTrip 3
        = some t ∧ t.end_ = some r ∧ r.km < t.start.km) := by
  refine ⟨by simp [exTrip], ?_, ?_⟩
  · refine ⟨{ exTrip with
        end_ := some { km := 1250, date := 1699913600000 }
        status := "completed"
        start := { exTrip.start with km := 1250 } }, { km := 1250, date := 1699913600000 }, ?_, rfl, ?_⟩
    · simp [generateInv, exStore, exTrip, exCar, exEarlyEnd, Store.findTrip, Store.findCar,
        Store.saveTrip, Store.createInvoice, dateOrNow]
      norm_num
    · simp [exTrip]
  · refine ⟨{ exTrip with end_ := some { date := exNow, km := 900 }, generated := [exNow] },
      { date := exNow, km := 900 }, ?_, rfl, ?_⟩
    · simp [generateInvoices, batchLoop, batchStep, endMap, tripMatch, exStore, exTrip, exCar,
        exOwner, exLowReading, Store.findCarsPopulated, Store.aggregateTrips, Store.findOwner,
        Store.findTrip, Store.saveTrip, Store.createInvoice, Store.setCurrentKm,
        Store.pushGenerated]
    · simp [exTrip]
      norm_num

/-- C7, amended: `generateInv` leaves the trip it touches with `end.km ≥ start.km` whenever
`end` is set, provided the trip satisfied this before; `start.date ≤ end.date` is kept by
`generateInv` when the end date it records (the supplied date, or the current time) is not
earlier than `trip.start.date`, and by the batch `generateInvoices` when `now` is not earlier
than `trip.start.date`. All three hold whatever the outcome of the call. -/
theorem end_not_before_start_preserved (getMonth : Int → Int) (s : Store) (now : Int)
    (id : Nat) (trip : Trip) (ht : s.findTrip id = some trip) :
    (∀ end_ status t r, (∀ r0, trip.end_ = some r0 → trip.start.km ≤ r0.km) →
      (generateInv s now id end_ status).1.findTrip id = some t → t.end_ = some r →
      t.start.km ≤ r.km) ∧
    (∀ end_ status t r, (∀ r0, trip.end_ = some r0 → trip.start.date ≤ r0.date) →
      (∀ e, end_ = some e → trip.start.date ≤ dateOrNow e.date now) →
      (generateInv s now id end_ status).1.findTrip id = some t → t.end_ = some r →
      t.start.date ≤ r.date) ∧
    (∀ end_ t r, (∀ r0, trip.end_ = some r0 → trip.start.date ≤ r0.date) →
      trip.start.date ≤ now →
      (generateInvoices getMonth s now end_).1.findTrip id = some t → t.end_ = some r →
      t.start.date ≤ r.date) := by
  refine ⟨?_, ?_, ?_⟩
  · intro end_ status t r hinv hfind hend
    rcases generateInv_findTrip now end_ status ht with h | ⟨e, -, hle, h | h | h⟩
    · have : t = trip := Option.some.inj (hfind.symm.trans h)
      subst this
      exact hinv r hend
    · have : t = _ := Option.some.inj (hfind.symm.trans h)
      subst this
      have hr : r = _ := (Option.some.inj hend).symm
      subst hr
      exact hle
    · have : t = _ := Option.some.inj (hfind.symm.trans h)
      subst this
      have hr : r = _ := (Option.some.inj hend).symm
      subst hr
      exact le_refl _
    · have : t = _ := Option.some.inj (hfind.symm.trans h)
      subst this
      cases hend
  · intro end_ status t r hinv hdate hfind hend
    rcases generateInv_findTrip now end_ status ht with h | ⟨e, he, -, h | h | h⟩
    · have : t = trip := Option.some.inj (hfind.symm.trans h)
      subst this
      exact hinv r hend
    · have : t = _ := Option.some.inj (hfind.symm.trans h)
      subst this
      have hr : r = _ := (Option.some.inj hend).symm
      subst hr
      exact hdate e he
    · have : t = _ := Option.some.inj (hfind.symm.trans h)
      subst this
      have hr : r = _ := (Option.some.inj hend).symm
      subst hr
      exact hdate e he
    · have : t = _ := Option.some.inj (hfind.symm.trans h)
      subst this
      cases hend
  · intro end_ t r hinv hnow hfind hend
    obtain ⟨t1, h1, -, hstart, hcase⟩ := generateInvoices_findTrip getMonth s now end_ id trip ht
    have : t = t1 := Option.some.inj (hfind.symm.trans h1)
    subst this
    rw [hstart]
    rcases hcase with h | ⟨km, h⟩
    · exact hinv r (h ▸ hend)
    · rw [h] at hend
      have hr : r = _ := (Option.some.inj hend).symm
      subst hr
      exact hnow

/-- Witness of the amended C7 on the sample store: after the sample non-continuing call the
stored trip has `end.km ≥ start.km`. -/
theorem end_not_before_start_preserved_witness :
    exStore.findTrip 3 = some exTrip ∧
    ∀ t r, (generateInv exStore exNow 3 (some exEnd) false).1.findTrip 3 = some t →
      t.end_ = some r → t.start.km ≤ r.km :=
  ⟨rfl, fun t r =>
    (end_not_before_start_preserved exGetMonth exStore exNow 3 exTrip rfl).1 (some exEnd) false t r
      (by simp [exTrip])⟩

/-! ## Monthly markers -/

/-- What the aggregation joins: a matched stored trip, its car and that car's owner. -/
theorem mem_aggregateTrips {s : Store} {getMonth : Int → Int} {now : Int} {row : TripRow}
    (h : row ∈ s.aggregateTrips getMonth now) :
    row.trip ∈ s.trips ∧ tripMatch getMonth now row.trip = true ∧
    row.carDetails ∈ s.cars ∧ row.carDetails._id = row.trip.car ∧
    row.ownerDetails ∈ s.owners ∧ row.ownerDetails._id = row.carDetails.owner := by
  simp only [Store.aggregateTrips, List.mem_flatMap, List.mem_filter, List.mem_map,
    decide_eq_true_eq] at h
  obtain ⟨t, ⟨ht, hm⟩, c, ⟨hc, hct⟩, o, ⟨ho, hoc⟩, rfl⟩ := h
  exact ⟨ht, hm, hc, hct, ho, hoc⟩

/-- A trip with an entry of `generated` pushed in the same month is not matched. -/
theorem tripMatch_false_of_marker {getMonth : Int → Int} {now now2 : Int} {t : Trip}
    (hm : now ∈ t.generated) (hmonth : getMonth now2 = getMonth now) :
    tripMatch getMonth now2 t = false := by
  have : t.generated.any
      (fun g => decide (invoiceGenerationMonth getMonth g = getMonth now2)) = true :=
    List.any_eq_true.mpr ⟨now, hm, by simp [invoiceGenerationMonth, hmonth]⟩
  simp [tripMatch, this]

theorem saveTrip_marker {s : Store} {t : Trip} {i : Nat} {m : Int}
    (hs : ∀ x ∈ s.trips, x._id = i → m ∈ x.generated) (ht : t._id = i → m ∈ t.generated) :
    ∀ x ∈ (s.saveTrip t).trips, x._id = i → m ∈ x.generated := by
  intro x hx hxi
  simp only [Store.saveTrip, List.mem_map] at hx
  obtain ⟨y, hy, rfl⟩ := hx
  by_cases h : y._id = t._id
  · simp only [h, if_true] at hxi ⊢
    exact ht hxi
  · simp only [h, if_false] at hxi ⊢
    exact hs y hy hxi

theorem findTrip_mem {s : Store} {id : Nat} {t : Trip} (h : s.findTrip id = some t) :
    t ∈ s.trips := List.mem_of_find?_eq_some h

/-- The per-trip generator never removes an entry of `generated`. -/
theorem generateInv_marker {s : Store} (now : Int) (id : Nat) (end_ : Option EndReading)
    (status : Bool) {i : Nat} {m : Int}
    (hs : ∀ x ∈ s.trips, x._id = i → m ∈ x.generated) :
    ∀ x ∈ (generateInv s now id end_ status).1.trips, x._id = i → m ∈ x.generated := by
  cases ht : s.findTrip id with
  | none => simpa [generateInv, ht] using hs
  | some trip =>
    have hg : trip._id = i → m ∈ trip.generated := hs trip (findTrip_mem ht)
    cases end_ with
    | none => simpa [generateInv, ht] using hs
    | some e =>
      by_cases hlt : e.km < trip.start.km
      · simpa [generateInv, ht, hlt] using hs
      · have h1 : ∀ x ∈ (s.saveTrip
            { trip with end_ := some { km := e.km, date := dateOrNow e.date now } }).trips,
            x._id = i → m ∈ x.generated := saveTrip_marker hs hg
        cases hc : s.findCar trip.car with
        | none => simpa [generateInv, ht, hlt, hc] using h1
        | some car =>
          cases status with
          | false =>
            simp only [generateInv, ht, hlt, hc, if_false]
            exact saveTrip_marker h1 hg
          | true =>
            simp only [generateInv, ht, hlt, hc, if_false]
            exact saveTrip_marker h1 hg

theorem batchLoop_marker (cars : List CarWithOwner) (now : Int) (em : String → Option ℚ)
    {i : Nat} {m : Int} :
    ∀ (rows : List TripRow) (s : Store) (acc : List Invoice),
      (∀ x ∈ s.trips, x._id = i → m ∈ x.generated) →
      ∀ x ∈ (batchLoop cars now em s rows acc).1.trips, x._id = i → m ∈ x.generated := by
  intro rows
  induction rows with
  | nil =>
    intro s acc hs
    simpa [batchLoop] using hs
  | cons row rest ih =>
    intro s acc hs
    cases hr : (batchStep cars now em s row).2 with
    | error f =>
      rw [batchLoop_cons_error rest acc hr]
      exact hs
    | ok inv =>
      rw [batchLoop_cons_ok rest acc hr]
      obtain ⟨cw, owner, endKm, td, -, -, -, -, htd, -, -, -, -, -, -, -, -, hst⟩ := batchStep_ok hr
      refine ih _ _ ?_
      rw [hst]
      exact saveTrip_marker hs (hs td (findTrip_mem htd))

theorem pushGenerated_marker {s : Store} (ids : List Nat) (now : Int) {i : Nat} {m : Int}
    (hs : ∀ x ∈ s.trips, x._id = i → m ∈ x.generated) :
    ∀ x ∈ (s.pushGenerated ids now).trips, x._id = i → m ∈ x.generated := by
  intro x hx hxi
  simp only [Store.pushGenerated, List.mem_map] at hx
  obtain ⟨y, hy, rfl⟩ := hx
  by_cases h : y._id ∈ ids
  · simp only [h, if_true] at hxi ⊢
    exact List.mem_append_left _ (hs y hy hxi)
  · simp only [h, if_false] at hxi ⊢
    exact hs y hy hxi

/-- The batch generator never removes an entry of `generated`. -/
theorem generateInvoices_marker (getMonth : Int → Int) {s : Store} (now : Int)
    (end_ : Option (List OwnerReading)) {i : Nat} {m : Int}
    (hs : ∀ x ∈ s.trips, x._id = i → m ∈ x.generated) :
    ∀ x ∈ (generateInvoices getMonth s now end_).1.trips, x._id = i → m ∈ x.generated := by
  rcases generateInvoices_run getMonth s now end_ with ⟨f, h⟩ | ⟨e, -, ⟨f, -, h⟩ | ⟨invs, -, h⟩⟩
  · rw [h]
    exact hs
  · rw [h]
    exact batchLoop_marker _ _ _ _ _ _ hs
  · rw [h]
    exact pushGenerated_marker _ _ (batchLoop_marker _ _ _ _ _ _ hs)

theorem runCalls_marker (getMonth : Int → Int) {i : Nat} {m : Int} :
    ∀ (calls : List Call) (s : Store), (∀ x ∈ s.trips, x._id = i → m ∈ x.generated) →
      ∀ x ∈ (runCalls getMonth s calls).trips, x._id = i → m ∈ x.generated := by
  intro calls
  induction calls with
  | nil =>
    intro s hs
    exact hs
  | cons c rest ih =>
    intro s hs
    have h : ∀ x ∈ (Call.run getMonth s c).trips, x._id = i → m ∈ x.generated := by
      cases c with
      | perTrip now id end_ status => exact generateInv_marker now id end_ status hs
      | monthly now end_ => exact generateInvoices_marker getMonth now end_ hs
    exact ih _ h

/-- C8: after a successful batch run at `now`, every selected trip is stored with `now`
appended to `generated`, and from then on, through any further calls of the two generators,
the selection predicate (`status` ongoing and no entry of `generated` of the current month) is
false for it at every time `now2` of the same month, so that no later batch run in that month
selects it. -/
theorem batch_marker_blocks_same_month (getMonth : Int → Int) (s : Store) (now : Int)
    (end_ : Option (List OwnerReading)) (invs : List Invoice)
    (hok : (generateInvoices getMonth s now end_).2 = .ok invs) :
    ∀ row ∈ s.aggregateTrips getMonth now,
      (∃ t0 t1, s.findTrip row.trip._id = some t0 ∧
        (generateInvoices getMonth s now end_).1.findTrip row.trip._id = some t1 ∧
        t1.generated = t0.generated ++ [now]) ∧
      ∀ calls now2, getMonth now2 = getMonth now →
        (∀ t ∈ (runCalls getMonth (generateInvoices getMonth s now end_).1 calls).trips,
          t._id = row.trip._id → tripMatch getMonth now2 t = false) ∧
        (∀ row2 ∈ (runCalls getMonth (generateInvoices getMonth s now end_).1
            calls).aggregateTrips getMonth now2, row2.trip._id ≠ row.trip._id) := by
  intro row hrow
  have hsucc : ∃ e, (generateInvoices getMonth s now end_).1 =
      (batchLoop s.findCarsPopulated now (endMap e) s
        (s.aggregateTrips getMonth now) []).1.pushGenerated
          ((s.aggregateTrips getMonth now).map (fun r => r.trip._id)) now := by
    rcases generateInvoices_run getMonth s now end_ with
      ⟨f, h⟩ | ⟨e, -, ⟨f, -, h⟩ | ⟨invs1, -, h⟩⟩
    · rw [h] at hok
      cases hok
    · rw [h] at hok
      cases hok
    · exact ⟨e, by rw [h]⟩
  obtain ⟨e, hs1⟩ := hsucc
  have hmemid : row.trip._id ∈ (s.aggregateTrips getMonth now).map (fun r => r.trip._id) :=
    List.mem_map.mpr ⟨row, hrow, rfl⟩
  have hmark : ∀ x ∈ (generateInvoices getMonth s now end_).1.trips,
      x._id = row.trip._id → now ∈ x.generated := by
    intro x hx hxi
    rw [hs1] at hx
    obtain ⟨y, -, rfl⟩ := List.mem_map.mp hx
    by_cases h : y._id ∈ (s.aggregateTrips getMonth now).map (fun r => r.trip._id)
    · rw [if_pos h]
      exact List.mem_append_right _ (List.mem_singleton.mpr rfl)
    · exfalso
      rw [if_neg h] at hxi
      exact h (hxi ▸ hmemid)
  refine ⟨?_, ?_⟩
  · have hin := (mem_aggregateTrips hrow).1
    cases ht0 : s.findTrip row.trip._id with
    | none =>
      have := List.find?_eq_none.mp ht0 row.trip hin
      simp at this
    | some t0 =>
      obtain ⟨e1, h1, -⟩ := batchLoop_findTrip s.findCarsPopulated now (endMap e)
        (s.aggregateTrips getMonth now) s [] row.trip._id t0 ht0
      have hid := findTrip_id ht0
      refine ⟨t0, { t0 with end_ := e1, generated := t0.generated ++ [now] }, rfl, ?_, rfl⟩
      rw [hs1, findTrip_pushGenerated, h1]
      simp only [Option.map_some', hid]
      rw [if_pos hmemid]
  · intro calls now2 hmonth
    have hall := runCalls_marker getMonth calls _ hmark
    refine ⟨fun t ht hti => tripMatch_false_of_marker (hall t ht hti) hmonth, ?_⟩
    intro row2 hrow2 hid
    obtain ⟨hin, hmatch, -⟩ := mem_aggregateTrips hrow2
    rw [tripMatch_false_of_marker (hall _ hin hid) hmonth] at hmatch
    cases hmatch

/-! ## Lookups in a store with unique ids -/

theorem find_eq_of_nodup {α : Type} (key : α → Nat) :
    ∀ (l : List α) (a : α), (l.map key).Nodup → a ∈ l →
      l.find? (fun x => decide (key x = key a)) = some a := by
  intro l
  induction l with
  | nil =>
    intro a _ ha
    cases ha
  | cons b l ih =>
    intro a hnd ha
    rw [List.map_cons, List.nodup_cons] at hnd
    by_cases hk : key b = key a
    · rcases List.mem_cons.mp ha with rfl | hal
      · simp
      · exact absurd (hk ▸ List.mem_map_of_mem key hal) hnd.1
    · rcases List.mem_cons.mp ha with rfl | hal
      · exact absurd rfl hk
      · rw [List.find?_cons]
        simp only [hk, decide_False]
        exact ih a hnd.2 hal

/-- With unique ids the loop finds, for a row of the aggregation, the row's own car with the
row's own owner. -/
theorem find_populated_of_row {s : Store} {getMonth : Int → Int} {now : Int} {row : TripRow}
    (hu : s.uniqueIds) (hrow : row ∈ s.aggregateTrips getMonth now) :
    s.findCarsPopulated.find? (fun c => c.car._id = row.carDetails._id) =
      some { car := row.carDetails, owner := some row.ownerDetails } := by
  obtain ⟨-, -, hc, -, ho, hoc⟩ := mem_aggregateTrips hrow
  have h1 := find_eq_of_nodup (fun c : Car => c._id) s.cars row.carDetails hu.1 hc
  have h2 := find_eq_of_nodup (fun o : Owner => o._id) s.owners row.ownerDetails hu.2 ho
  have h3 : s.findOwner row.carDetails.owner = some row.ownerDetails := by
    rw [← hoc]
    exact h2
  simp only [Store.findCarsPopulated, List.find?_map]
  have h4 : ((fun c : CarWithOwner => decide (c.car._id = row.carDetails._id)) ∘
      fun c : Car => ({ car := c, owner := s.findOwner c.owner } : CarWithOwner)) =
      fun c : Car => decide (c._id = row.carDetails._id) := rfl
  rw [h4, h1]
  simp [h3]

/-! ## The map of owner readings -/

theorem endMap_foldl_none (k : String) :
    ∀ (e : List OwnerReading) (m0 : String → Option ℚ), (∀ r ∈ e, r.email ≠ k) →
      (e.foldl (fun m r => fun k1 => if k1 = r.email then some r.km else m k1) m0) k = m0 k := by
  intro e
  induction e with
  | nil =>
    intro m0 _
    rfl
  | cons r e ih =>
    intro m0 h
    rw [List.foldl_cons, ih _ (fun x hx => h x (List.mem_cons_of_mem _ hx))]
    have : ¬ k = r.email := fun hk => h r (List.mem_cons_self _ _) hk.symm
    simp [this]

/-- An email none of the supplied readings carries has no entry in the map. -/
theorem endMap_none {e : List OwnerReading} {k : String} (h : ∀ r ∈ e, r.email ≠ k) :
    endMap e k = none :=
  endMap_foldl_none k e _ h

theorem endMap_foldl_some (k : String) (v : ℚ) :
    ∀ (e : List OwnerReading) (m0 : String → Option ℚ),
      (e.foldl (fun m r => fun k1 => if k1 = r.email then some r.km else m k1) m0) k = some v →
      m0 k = some v ∨ ∃ r ∈ e, r.email = k ∧ r.km = v := by
  intro e
  induction e with
  | nil =>
    intro m0 h
    exact Or.inl h
  | cons r e ih =>
    intro m0 h
    rw [List.foldl_cons] at h
    rcases ih _ h with h1 | ⟨x, hx, hxe, hxk⟩
    · by_cases hk : k = r.email
      · simp only [hk, if_true] at h1
        exact Or.inr ⟨r, List.mem_cons_self _ _, hk.symm, Option.some.inj h1⟩
      · simp only [hk, if_false] at h1
        exact Or.inl h1
    · exact Or.inr ⟨x, List.mem_cons_of_mem _ hx, hxe, hxk⟩

/-- An entry of the map is the reading of one of the supplied elements. -/
theorem endMap_some {e : List OwnerReading} {k : String} {v : ℚ} (h : endMap e k = some v) :
    ∃ r ∈ e, r.email = k ∧ r.km = v := by
  rcases endMap_foldl_some k v e _ h with h1 | h1
  · cases h1
  · exact h1

/-! ## Claims about the batch -/

/-- The sample batch run succeeds with `exBatchInvoice`. -/
theorem exStore_generateInvoices :
    (generateInvoices exGetMonth exStore exNow (some [exReading])).2 = .ok [exBatchInvoice] := by
  simp [generateInvoices, batchLoop, batchStep, endMap, tripMatch, exStore, exTrip, exCar,
    exOwner, exReading, exBatchInvoice, Store.findCarsPopulated, Store.aggregateTrips,
    Store.findOwner, Store.findTrip, Store.saveTrip, Store.createInvoice, Store.setCurrentKm,
    Store.pushGenerated, dayCount, msPerDay, exNow]
  norm_num

theorem exRow_mem : exRow ∈ exStore.aggregateTrips exGetMonth exNow := by
  simp [Store.aggregateTrips, tripMatch, exStore, exTrip, exCar, exOwner, exRow]

/-- Witness of C8 on the sample store: after the sample batch run on day 1, no batch run on
day 2 selects trip 3. -/
theorem batch_marker_blocks_same_month_witness :
    (generateInvoices exGetMonth exStore exNow (some [exReading])).2 = .ok [exBatchInvoice] ∧
    ∀ row2 ∈ (generateInvoices exGetMonth exStore exNow
        (some [exReading])).1.aggregateTrips exGetMonth 1700172800000, row2.trip._id ≠ 3 :=
  ⟨exStore_generateInvoices,
    ((batch_marker_blocks_same_month exGetMonth exStore exNow (some [exReading])
      [exBatchInvoice] exStore_generateInvoices exRow exRow_mem).2 [] 1700172800000
        (by decide)).2⟩

theorem forall₂_imp_mem {α β : Type} {R1 R2 : α → β → Prop} :
    ∀ {l1 : List α} {l2 : List β}, (∀ a b, a ∈ l1 → R1 a b → R2 a b) →
      List.Forall₂ R1 l1 l2 → List.Forall₂ R2 l1 l2 := by
  intro l1 l2 himp h
  induction h with
  | nil => exact List.Forall₂.nil
  | @cons a b l1 l2 hab _ ih =>
    exact List.Forall₂.cons (himp a b (List.mem_cons_self _ _) hab)
      (ih (fun x y hx hxy => himp x y (List.mem_cons_of_mem _ hx) hxy))

/-- C9: in a store with unique ids, the invoices a batch run saves are those of an initial
segment of the selected trips, in query order (all of them when the run succeeds, and then
they are the list returned), and the invoice of a trip whose owner reading is `endKm` has
`dayQty = ceil((now - start.date) / 86400000)`, `kmQty = endKm - start.km`,
`dayAmount = dayQty * car.rate.date` (no offroad term) and `kmAmount = kmQty * car.rate.km`. -/
theorem batch_invoice_amounts (getMonth : Int → Int) (s : Store) (now : Int)
    (e : List OwnerReading) (hu : s.uniqueIds) :
    ∃ created,
      (generateInvoices getMonth s now (some e)).1.invoices = s.invoices ++ created ∧
      List.Forall₂
        (fun row inv => ∃ endKm, endMap e row.ownerDetails.email = some endKm ∧
          (∃ r ∈ e, r.email = row.ownerDetails.email ∧ r.km = endKm) ∧
          inv.dayQty = ((⌈((now - row.trip.start.date : ℤ) : ℚ) / 86400000⌉ : ℤ) : ℚ) ∧
          inv.kmQty = endKm - row.trip.start.km ∧
          inv.dayAmount = inv.dayQty * row.carDetails.rate.date ∧
          inv.kmAmount = inv.kmQty * row.carDetails.rate.km)
        ((s.aggregateTrips getMonth now).take created.length) created ∧
      (∀ invs, (generateInvoices getMonth s now (some e)).2 = .ok invs →
        invs = created ∧ created.length = (s.aggregateTrips getMonth now).length) := by
  have hms : msPerDay = 86400000 := by norm_num [msPerDay]
  have hrel : ∀ row inv, row ∈ s.aggregateTrips getMonth now →
      (∃ s0, (batchStep s.findCarsPopulated now (endMap e) s0 row).2 = .ok inv) →
      ∃ endKm, endMap e row.ownerDetails.email = some endKm ∧
        (∃ r ∈ e, r.email = row.ownerDetails.email ∧ r.km = endKm) ∧
        inv.dayQty = ((⌈((now - row.trip.start.date : ℤ) : ℚ) / 86400000⌉ : ℤ) : ℚ) ∧
        inv.kmQty = endKm - row.trip.start.km ∧
        inv.dayAmount = inv.dayQty * row.carDetails.rate.date ∧
        inv.kmAmount = inv.kmQty * row.carDetails.rate.km := by
    intro row inv hrow hstep
    obtain ⟨s0, h0⟩ := hstep
    obtain ⟨cw, owner, endKm, td, h1, h2, h3, -, -, h6, h7, h8, h9, -⟩ := batchStep_ok h0
    rw [find_populated_of_row hu hrow] at h1
    have hcw : cw = _ := (Option.some.inj h1).symm
    subst hcw
    have hown : owner = row.ownerDetails := (Option.some.inj h2).symm
    subst hown
    refine ⟨endKm, h3, endMap_some h3, ?_, h7, h8, h9⟩
    rw [h6, dayCount, hms]
  obtain ⟨created, h1, h2, h3⟩ := batchLoop_created s.findCarsPopulated now (endMap e)
    (s.aggregateTrips getMonth now) s []
  have h2r := forall₂_imp_mem
    (fun row inv hrow hstep => hrel row inv (List.mem_of_mem_take hrow) hstep) h2
  rcases generateInvoices_run getMonth s now (some e) with
    ⟨f, h⟩ | ⟨e1, he1, ⟨f, -, h⟩ | ⟨invs1, hl, h⟩⟩
  · rw [h]
    exact ⟨[], by simp, by simp, by intro invs hinv; cases hinv⟩
  · cases he1
    rw [h]
    exact ⟨created, h1, h2r, by intro invs hinv; cases hinv⟩
  · cases he1
    rw [h]
    refine ⟨created, by simpa [pushGenerated_invoices] using h1, h2r, ?_⟩
    intro invs hinv
    have hi : invs = invs1 := (Except.ok.inj hinv).symm
    obtain ⟨h4, h5⟩ := h3 invs1 hl
    exact ⟨by rw [hi, h4]; simp, h5⟩

/-- Witness of C9 on the sample store: the sample run saves one invoice. -/
theorem batch_invoice_amounts_witness :
    exStore.uniqueIds ∧
    ∃ created, (generateInvoices exGetMonth exStore exNow (some [exReading])).1.invoices =
      exStore.invoices ++ created ∧ created = [exBatchInvoice] := by
  obtain ⟨created, h1, -, h3⟩ :=
    batch_invoice_amounts exGetMonth exStore exNow [exReading] (by decide)
  exact ⟨by decide, created, h1, ((h3 _ exStore_generateInvoices).1).symm⟩

/-- A loop body keeps every stored trip stored. -/
theorem batchStep_findTrip_isSome {cars : List CarWithOwner} {now : Int}
    {em : String → Option ℚ} {s : Store} {row : TripRow} {id : Nat}
    (h : (s.findTrip id).isSome = true) :
    ((batchStep cars now em s row).1.findTrip id).isSome = true := by
  cases hr : (batchStep cars now em s row).2 with
  | error f =>
    rw [batchStep_error hr]
    exact h
  | ok inv =>
    obtain ⟨cw, owner, endKm, td, -, -, -, -, -, -, -, -, -, -, -, -, -, hs⟩ := batchStep_ok hr
    have hfind : (batchStep cars now em s row).1.findTrip id =
        (s.saveTrip { td with end_ := some { date := now, km := endKm } }).findTrip id := by
      rw [hs]
      rfl
    rw [hfind, findTrip_saveTrip]
    split
    · rw [Option.isSome_map']
      exact h
    · exact h

/-- The loop body when the car, its owner and the trip are found: it fails with the
missing-reading error when the owner has no reading or a reading of 0, and succeeds
otherwise. -/
theorem batchStep_found {cars : List CarWithOwner} (now : Int) (em : String → Option ℚ)
    {s : Store} {row : TripRow} {cw : CarWithOwner} {owner : Owner}
    (h1 : cars.find? (fun c => c.car._id = row.carDetails._id) = some cw)
    (h2 : cw.owner = some owner) (h3 : (s.findTrip row.trip._id).isSome = true) :
    ((em owner.email = none ∨ em owner.email = some 0) ∧
      (batchStep cars now em s row).2 = .error (endKmMissing owner.email)) ∨
    (∃ km inv, em owner.email = some km ∧ km ≠ 0 ∧
      (batchStep cars now em s row).2 = .ok inv) := by
  obtain ⟨td, htd⟩ := Option.isSome_iff_exists.mp h3
  cases h4 : em owner.email with
  | none => exact Or.inl ⟨Or.inl rfl, by simp [batchStep, h1, h2, h4]⟩
  | some km =>
    by_cases h5 : km = 0
    · exact Or.inl ⟨Or.inr (by rw [h5]), by simp [batchStep, h1, h2, h4, h5]⟩
    · exact Or.inr ⟨km, _, rfl, h5, by simp [batchStep, h1, h2, h4, h5, htd]; rfl⟩

/-- A loop over rows whose car, owner and trip are found fails with a 400 error as soon as
one of the rows has an owner without a reading. -/
theorem batchLoop_missing (cars : List CarWithOwner) (now : Int) (em : String → Option ℚ) :
    ∀ (rows : List TripRow) (s : Store) (acc : List Invoice),
      (∀ row ∈ rows,
        cars.find? (fun c => c.car._id = row.carDetails._id) =
          some { car := row.carDetails, owner := some row.ownerDetails } ∧
        (s.findTrip row.trip._id).isSome = true) →
      (∃ row ∈ rows, em row.ownerDetails.email = none) →
      ∃ msg, (batchLoop cars now em s rows acc).2 = .error (.api ⟨400, msg⟩) := by
  intro rows
  induction rows with
  | nil =>
    rintro s acc - ⟨row, hrow, -⟩
    cases hrow
  | cons row rest ih =>
    intro s acc hgood hmiss
    obtain ⟨hf, ht⟩ := hgood row (List.mem_cons_self _ _)
    rcases batchStep_found now em hf rfl ht with ⟨-, herr⟩ | ⟨km, inv, hkm, -, hok⟩
    · rw [batchLoop_cons_error rest acc herr]
      exact ⟨_, rfl⟩
    · rw [batchLoop_cons_ok rest acc hok]
      refine ih _ _ ?_ ?_
      · intro r hr
        obtain ⟨hf1, ht1⟩ := hgood r (List.mem_cons_of_mem _ hr)
        exact ⟨hf1, batchStep_findTrip_isSome ht1⟩
      · obtain ⟨r, hr, hnone⟩ := hmiss
        rcases List.mem_cons.mp hr with rfl | hr
        · rw [hkm] at hnone
          cases hnone
        · exact ⟨r, hr, hnone⟩

/-- C10: in a store with unique ids, the batch generator fails with an `ApiError` of status
400 whenever some selected trip's owner email has no reading in the supplied end list (that
list being absent or empty included). -/
theorem batch_missing_reading_fails (getMonth : Int → Int) (s : Store) (now : Int)
    (end_ : Option (List OwnerReading)) (hu : s.uniqueIds)
    (hmiss : ∃ row ∈ s.aggregateTrips getMonth now,
      ∀ e, end_ = some e → ∀ r ∈ e, r.email ≠ row.ownerDetails.email) :
    ∃ msg, (generateInvoices getMonth s now end_).2 = .error (.api ⟨400, msg⟩) := by
  obtain ⟨row, hrow, hno⟩ := hmiss
  have hcars : s.findCarsPopulated.isEmpty = false := by
    have hc := (mem_aggregateTrips hrow).2.2.1
    cases hcs : s.cars with
    | nil => rw [hcs] at hc; cases hc
    | cons c cs => simp [Store.findCarsPopulated, hcs]
  have hrows : (s.aggregateTrips getMonth now).isEmpty = false := by
    cases hr : s.aggregateTrips getMonth now with
    | nil => rw [hr] at hrow; cases hrow
    | cons r rs => rfl
  unfold generateInvoices
  simp only [hcars, hrows, Bool.false_eq_true, if_false]
  cases end_ with
  | none => exact ⟨_, rfl⟩
  | some e =>
    by_cases he : e.isEmpty = true
    · simp only [he, if_true]
      exact ⟨_, rfl⟩
    · simp only [he, if_false]
      have hgood : ∀ r ∈ s.aggregateTrips getMonth now,
          s.findCarsPopulated.find? (fun c => c.car._id = r.carDetails._id) =
            some { car := r.carDetails, owner := some r.ownerDetails } ∧
          (s.findTrip r.trip._id).isSome = true := by
        intro r hr
        refine ⟨find_populated_of_row hu hr, ?_⟩
        have hin := (mem_aggregateTrips hr).1
        cases ht0 : s.findTrip r.trip._id with
        | none =>
          have := List.find?_eq_none.mp ht0 r.trip hin
          simp at this
        | some t0 => rfl
      obtain ⟨msg, hmsg⟩ := batchLoop_missing s.findCarsPopulated now (endMap e)
        (s.aggregateTrips getMonth now) s [] hgood ⟨row, hrow, endMap_none (hno e rfl)⟩
      cases hb : batchLoop s.findCarsPopulated now (endMap e) s
          (s.aggregateTrips getMonth now) [] with
      | mk s1 r =>
        rw [hb] at hmsg
        simp only at hmsg
        subst hmsg
        exact ⟨msg, rfl⟩

/-- Witness of C10 on the sample store: the only reading supplied is for another owner. -/
theorem batch_missing_reading_fails_witness :
    exStore.uniqueIds ∧
    (∃ row ∈ exStore.aggregateTrips exGetMonth exNow,
      ∀ e, some [exOtherReading] = some e → ∀ r ∈ e, r.email ≠ row.ownerDetails.email) ∧
    ∃ msg, (generateInvoices exGetMonth exStore exNow (some [exOtherReading])).2 =
      .error (.api ⟨400, msg⟩) := by
  have h : ∃ row ∈ exStore.aggregateTrips exGetMonth exNow,
      ∀ e, some [exOtherReading] = some e → ∀ r ∈ e, r.email ≠ row.ownerDetails.email := by
    refine ⟨exRow, exRow_mem, ?_⟩
    intro e he r hr
    cases he
    rw [List.mem_singleton.mp hr]
    decide
  exact ⟨by decide, h,
    batch_missing_reading_fails exGetMonth exStore exNow (some [exOtherReading])
      (by decide) h⟩

/-! ## Further claims about `generateInv` -/

/-- The per-trip generator writes no car. -/
theorem generateInv_cars (s : Store) (now : Int) (id : Nat) (end_ : Option EndReading)
    (status : Bool) : (generateInv s now id end_ status).1.cars = s.cars := by
  cases ht : s.findTrip id with
  | none => simp [generateInv, ht]
  | some trip =>
    cases end_ with
    | none => simp [generateInv, ht]
    | some e =>
      by_cases hlt : e.km < trip.start.km
      · simp [generateInv, ht, hlt]
      · cases hc : s.findCar trip.car with
        | none => simp [generateInv, ht, hlt, hc, Store.saveTrip]
        | some car => simp [generateInv, ht, hlt, hc, Store.saveTrip, Store.createInvoice]

theorem generateInv_findCar (s : Store) (now : Int) (id : Nat) (end_ : Option EndReading)
    (status : Bool) (cid : Nat) :
    (generateInv s now id end_ status).1.findCar cid = s.findCar cid := by
  simp only [Store.findCar, generateInv_cars]

/-- C16: when `generateInv` fails because `end.km < start.km`, the store is left exactly as it
was: the stored trip is unchanged (`end`, `start`, `status`, `offroad` as before) and no
invoice is created. -/
theorem generateInv_reject_leaves_store (s : Store) (now : Int) (id : Nat) (e : EndReading)
    (status : Bool) (trip : Trip) (ht : s.findTrip id = some trip)
    (hlt : e.km < trip.start.km) :
    (generateInv s now id (some e) status).2 = .error endKmError ∧
    (generateInv s now id (some e) status).1 = s ∧
    (generateInv s now id (some e) status).1.findTrip id = some trip ∧
    (generateInv s now id (some e) status).1.invoices = s.invoices := by
  rw [generateInv_reject now e status ht hlt]
  exact ⟨rfl, rfl, ht, rfl⟩

/-- Witness of C16 on the sample store: a reading of 900 km against a start of 1000 km. -/
theorem generateInv_reject_leaves_store_witness :
    exStore.findTrip 3 = some exTrip ∧ (900 : ℚ) < exTrip.start.km ∧
    (generateInv exStore exNow 3 (some { id := 3, km := 900, date := none }) true).1 = exStore :=
  ⟨rfl, by decide,
    (generateInv_reject_leaves_store exStore exNow 3 { id := 3, km := 900, date := none } true
      exTrip rfl (by decide)).2.1⟩

/-- C19: `generateInv` does not look at `trip.status`. After a successful non-continuing call
with a dated reading the trip is stored as completed, and a second call with the same
reading (at any later clock value, with either flag) succeeds again and creates a second
invoice with `kmQty = 0` and the `dayQty` and `dayAmount` of the first. -/
theorem generateInv_again_on_completed (s : Store) (now1 now2 : Int) (id : Nat)
    (e : EndReading) (status2 : Bool) (d : Int) (trip : Trip) (car : Car) (inv1 : Invoice)
    (ht : s.findTrip id = some trip) (hc : s.findCar trip.car = some car)
    (hd : e.date = some d)
    (hok : (generateInv s now1 id (some e) false).2 = .ok inv1) :
    (∃ t, (generateInv s now1 id (some e) false).1.findTrip id = some t ∧
      t.status = "completed") ∧
    ∃ inv2,
      (generateInv (generateInv s now1 id (some e) false).1 now2 id (some e) status2).2 =
        .ok inv2 ∧
      inv2.kmQty = 0 ∧ inv2.dayQty = inv1.dayQty ∧ inv2.dayAmount = inv1.dayAmount ∧
      (generateInv (generateInv s now1 id (some e) false).1 now2 id (some e) status2).1.invoices =
        s.invoices ++ [inv1, inv2] := by
  obtain ⟨-, hd1, -, hda1, -, -⟩ := generateInv_ok_spec ht hc hok
  have ht1 := generateInv_ok_trip ht hok
  simp only [if_true] at ht1
  have hc1 : (generateInv s now1 id (some e) false).1.findCar trip.car = some car := by
    rw [generateInv_findCar]
    exact hc
  have hinv1 : (generateInv s now1 id (some e) false).1.invoices = s.invoices ++ [inv1] := by
    rcases generateInv_invoices s now1 id (some e) false with ⟨⟨f, hf⟩, -⟩ | ⟨inv, h1, h2, -⟩
    · rw [hf] at hok
      cases hok
    · rw [h1] at hok
      rw [h2, Except.ok.inj hok]
  obtain ⟨inv2, h2, hd2, hk2, hda2, -, -, hinv2, -⟩ :=
    generateInv_accept now2 e status2 ht1 hc1 (le_refl _)
  refine ⟨⟨_, ht1, rfl⟩, inv2, h2, ?_, ?_, ?_, ?_⟩
  · rw [hk2]
    simp [subDouble_self]
  · rw [hd2, hd1, hd]
    rfl
  · rw [hda2, hda1, hd2, hd1, hd]
    rfl
  · rw [hinv2, hinv1]
    simp

/-- Witness of C19 on the sample store. -/
theorem generateInv_again_on_completed_witness :
    exStore.findTrip 3 = some exTrip ∧ exStore.findCar exTrip.car = some exCar ∧
    exEnd.date = some 1700432000000 ∧
    (generateInv exStore exNow 3 (some exEnd) false).2 = .ok exInvoice ∧
    ∃ inv2,
      (generateInv (generateInv exStore exNow 3 (some exEnd) false).1 1700500000000 3
        (some exEnd) false).2 = .ok inv2 ∧
      inv2.kmQty = 0 ∧ inv2.dayQty = 5 ∧ inv2.dayAmount = 400 := by
  obtain ⟨-, inv2, h1, h2, h3, h4, -⟩ :=
    generateInv_again_on_completed exStore exNow 1700500000000 3 exEnd false 1700432000000
      exTrip exCar exInvoice rfl rfl rfl exStore_generateInv_false
  exact ⟨rfl, rfl, rfl, exStore_generateInv_false, inv2, h1, h2, h3, h4⟩

/-- C17: kilometres telescope across rollovers. For a trip with an integer start odometer
and integer end readings that never decrease, applied by consecutive continuing
`generateInv` calls, every call succeeds and the `kmQty` of the invoices sum to the last
reading minus the original `start.km`. -/
theorem kmQty_telescopes (id : Nat) (calls : List (Int × EndReading)) (s : Store)
    (trip : Trip) (car : Car) (ht : s.findTrip id = some trip)
    (hc : s.findCar trip.car = some car) (hz0 : ∃ z : ℤ, trip.start.km = z)
    (hz : ∀ c ∈ calls, ∃ z : ℤ, c.2.km = z)
    (hchain : List.Chain (fun a b : ℚ => a ≤ b) trip.start.km (calls.map (fun c => c.2.km))) :
    ∃ invs : List Invoice,
      (continuingCalls id s calls).2 = invs.map Except.ok ∧ invs.length = calls.length ∧
      (invs.map (fun i => i.kmQty)).sum =
        (calls.map (fun c => c.2.km)).getLastD trip.start.km - trip.start.km := by
  induction calls generalizing s trip with
  | nil => exact ⟨[], rfl, rfl, by simp⟩
  | cons c rest ih =>
    obtain ⟨now, e⟩ := c
    rw [List.map_cons, List.chain_cons] at hchain
    obtain ⟨hle, hrest⟩ := hchain
    obtain ⟨inv, hok, -, hk, -, -, -, -, htrip⟩ := generateInv_accept now e true ht hc hle
    simp only [Bool.true_eq_false, if_false] at htrip
    have hcar : (generateInv s now id (some e) true).1.findCar trip.car = some car := by
      rw [generateInv_findCar]
      exact hc
    obtain ⟨z1, hz1⟩ := hz (now, e) (List.mem_cons_self _ _)
    obtain ⟨invs, h1, h2, h3⟩ := ih (generateInv s now id (some e) true).1 _ htrip hcar
      ⟨z1, hz1⟩ (fun c hc => hz c (List.mem_cons_of_mem _ hc)) hrest
    refine ⟨inv :: invs, ?_, by simp [h2], ?_⟩
    · simp only [continuingCalls, List.map_cons, hok, h1]
    · obtain ⟨z0, hz0⟩ := hz0
      have hkm : inv.kmQty = e.km - trip.start.km := by
        rw [hk]
        simp only at hz1
        rw [hz1, hz0]
        rw [subDouble_intCast, Int.ceil_intCast]
        push_cast
        ring
      simp only [List.map_cons, List.sum_cons, List.getLastD_cons] at h3 ⊢
      rw [h3, hkm]
      ring

/-- Witness of C17 on the sample store: readings 1250 and 1400 after a start of 1000. -/
theorem kmQty_telescopes_witness :
    exStore.findTrip 3 = some exTrip ∧ exStore.findCar exTrip.car = some exCar ∧
    ∃ invs : List Invoice,
      (continuingCalls 3 exStore exReadings).2 = invs.map Except.ok ∧ invs.length = 2 ∧
      (invs.map (fun i => i.kmQty)).sum = 1400 - 1000 := by
  obtain ⟨invs, h1, h2, h3⟩ := kmQty_telescopes 3 exReadings exStore exTrip exCar rfl rfl
    ⟨1000, by norm_num [exTrip]⟩
    (by
      intro c hc
      simp only [exReadings, List.mem_cons, List.mem_singleton, List.not_mem_nil, or_false] at hc
      rcases hc with rfl | rfl
      · exact ⟨1250, by norm_num⟩
      · exact ⟨1400, by norm_num⟩)
    (by
      simp only [exReadings, exTrip, List.map_cons, List.map_nil, List.chain_cons]
      exact ⟨by norm_num, by norm_num, List.Chain.nil⟩)
  exact ⟨rfl, rfl, invs, h1, h2, h3⟩

/-! ## Which reading the batch uses -/

theorem endMap_concat (e : List OwnerReading) (r : OwnerReading) (k : String) :
    endMap (e ++ [r]) k = if k = r.email then some r.km else endMap e k := by
  simp [endMap, List.foldl_append]

/-- The map holds, for an email, the reading of the last element of the list with that
email. -/
theorem endMap_eq_last (e : List OwnerReading) (k : String) :
    endMap e k = ((e.filter (fun r => r.email = k)).getLast?).map (fun r => r.km) := by
  induction e using List.reverseRecOn with
  | nil => rfl
  | append_singleton e r ih =>
    rw [endMap_concat, List.filter_append]
    by_cases h : k = r.email
    · subst h
      simp [List.getLast?_append]
    · have h2 : ¬ r.email = k := fun h3 => h h3.symm
      simp [h, h2, ih]

/-- C18: for a trip whose car and owner the loop finds, the loop body raises the per-owner
missing-reading error exactly when the reading looked up by the owner's email is absent or
0; the reading looked up is that of the last element of the end list with that email, and it
is the one a successful body bills. -/
theorem batch_missing_reading_iff_falsy (cars : List CarWithOwner) (now : Int)
    (e : List OwnerReading) (s : Store) (row : TripRow) (cw : CarWithOwner) (owner : Owner)
    (h1 : cars.find? (fun c => c.car._id = row.carDetails._id) = some cw)
    (h2 : cw.owner = some owner) :
    ((batchStep cars now (endMap e) s row).2 = .error (endKmMissing owner.email) ↔
      endMap e owner.email = none ∨ endMap e owner.email = some 0) ∧
    endMap e owner.email =
      ((e.filter (fun r => r.email = owner.email)).getLast?).map (fun r => r.km) ∧
    (∀ inv, (batchStep cars now (endMap e) s row).2 = .ok inv →
      ∃ r, (e.filter (fun r => r.email = owner.email)).getLast? = some r ∧ r.km ≠ 0 ∧
        inv.kmQty = r.km - row.trip.start.km) := by
  refine ⟨?_, endMap_eq_last e owner.email, ?_⟩
  · constructor
    · intro herr
      cases h3 : endMap e owner.email with
      | none => exact Or.inl rfl
      | some km =>
        by_cases h4 : km = 0
        · exact Or.inr (by rw [h4])
        · exfalso
          cases h5 : s.findTrip row.trip._id with
          | none =>
            simp [batchStep, h1, h2, h3, h4, h5, tripNotFound, endKmMissing] at herr
          | some td =>
            simp [batchStep, h1, h2, h3, h4, h5, Store.createInvoice] at herr
    · rintro (h3 | h3)
      · simp [batchStep, h1, h2, h3]
      · simp [batchStep, h1, h2, h3]
  · intro inv hok
    obtain ⟨cw1, owner1, endKm, td, hf, ho, hem, hne, -, -, hkm, -⟩ := batchStep_ok hok
    rw [h1] at hf
    have hcw : cw1 = cw := (Option.some.inj hf).symm
    subst hcw
    rw [h2] at ho
    have hown : owner1 = owner := (Option.some.inj ho).symm
    subst hown
    rw [endMap_eq_last] at hem
    cases hl : (e.filter (fun r => r.email = owner1.email)).getLast? with
    | none => simp [hl] at hem
    | some r =>
      simp only [hl, Option.map_some', Option.some.injEq] at hem
      exact ⟨r, rfl, by rw [hem]; exact hne, by rw [hkm, hem]⟩

/-- Witness of C18 on the sample store: with 1200 km supplied first and 0 km last for the same
email, the body fails with the missing-reading error. -/
theorem batch_missing_reading_iff_falsy_witness :
    exStore.findCarsPopulated.find? (fun c => c.car._id = exRow.carDetails._id) =
      some { car := exCar, owner := some exOwner } ∧
    (batchStep exStore.findCarsPopulated exNow (endMap exZeroLast) exStore exRow).2 =
      .error (endKmMissing exOwner.email) := by
  have h1 : exStore.findCarsPopulated.find? (fun c => c.car._id = exRow.carDetails._id) =
      some { car := exCar, owner := some exOwner } := by
    simp [Store.findCarsPopulated, Store.findOwner, exStore, exRow, exCar, exOwner]
  refine ⟨h1, ?_⟩
  have h := (batch_missing_reading_iff_falsy exStore.findCarsPopulated exNow exZeroLast exStore
    exRow { car := exCar, owner := some exOwner } exOwner h1 rfl).1
  refine h.mpr (Or.inr ?_)
  rw [endMap_eq_last]
  simp [exZeroLast, exOwner]

/-! ## What the batch loop writes -/

theorem endKmOf_congr (cars : List CarWithOwner) (em : String → Option ℚ) {r1 r2 : TripRow}
    (h : r1.carDetails._id = r2.carDetails._id) : endKmOf cars em r1 = endKmOf cars em r2 := by
  simp only [endKmOf, h]

/-- The writes of a successful loop body: the trip's `end`, the car's `currentKm` and one
invoice, all from the reading `endKm` of the row. -/
theorem batchStep_writes {cars : List CarWithOwner} {now : Int} {em : String → Option ℚ}
    {s : Store} {row : TripRow} {inv : Invoice}
    (h : (batchStep cars now em s row).2 = .ok inv) :
    ∃ km td, endKmOf cars em row = some km ∧ km ≠ 0 ∧
      s.findTrip row.trip._id = some td ∧ inv.trip = row.trip._id ∧
      (∀ id, (batchStep cars now em s row).1.findTrip id =
        if id = row.trip._id then some { td with end_ := some { date := now, km := km } }
        else s.findTrip id) ∧
      (batchStep cars now em s row).1.cars =
        s.cars.map (fun x =>
          if x._id = row.carDetails._id then { x with currentKm := km } else x) ∧
      (batchStep cars now em s row).1.owners = s.owners ∧
      (batchStep cars now em s row).1.invoices = s.invoices ++ [inv] := by
  obtain ⟨cw, owner, endKm, td, h1, h2, h3, h4, h5, -, -, -, -, -, -, h6, -, hs⟩ :=
    batchStep_ok h
  have hcw : cw.car._id = row.carDetails._id := by
    simpa using List.find?_some h1
  refine ⟨endKm, td, by simp [endKmOf, h1, h2, h3], h4, h5, h6, ?_, ?_, ?_, ?_⟩
  · intro id
    have hfind : (batchStep cars now em s row).1.findTrip id =
        (s.saveTrip { td with end_ := some { date := now, km := endKm } }).findTrip id := by
      rw [hs]
      rfl
    rw [hfind, findTrip_saveTrip]
    have hid := findTrip_id h5
    by_cases hi : id = row.trip._id
    · have hi2 : id = td._id := hi.trans hid.symm
      rw [if_pos hi, if_pos hi2, hi, h5]
      rfl
    · have hi2 : ¬ id = td._id := fun h7 => hi (h7.trans hid)
      rw [if_neg hi, if_neg hi2]
  · rw [hs]
    simp only [Store.setCurrentKm, hcw]
  · rw [hs]
  · rw [hs]

/-- Running the loop over `pre ++ rest` is running it over `pre` and, when that completes,
over `rest` from the store and the invoices it left. -/
theorem batchLoop_append (cars : List CarWithOwner) (now : Int) (em : String → Option ℚ)
    (rest : List TripRow) :
    ∀ (pre : List TripRow) (s : Store) (acc invs : List Invoice),
      (batchLoop cars now em s pre acc).2 = .ok invs →
      batchLoop cars now em s (pre ++ rest) acc =
        batchLoop cars now em (batchLoop cars now em s pre acc).1 rest invs := by
  intro pre
  induction pre with
  | nil =>
    intro s acc invs h
    simp only [batchLoop] at h
    rw [Except.ok.inj h]
    rfl
  | cons row pre ih =>
    intro s acc invs h
    cases hr : (batchStep cars now em s row).2 with
    | error f =>
      rw [batchLoop_cons_error pre acc hr] at h
      cases h
    | ok inv =>
      rw [batchLoop_cons_ok pre acc hr] at h
      rw [List.cons_append, batchLoop_cons_ok (pre ++ rest) acc hr, batchLoop_cons_ok pre acc hr]
      exact ih _ _ _ h

/-- A trip none of the rows names is left as it was by the loop. -/
theorem batchLoop_findTrip_of_not_mem (cars : List CarWithOwner) (now : Int)
    (em : String → Option ℚ) (id : Nat) :
    ∀ (rows : List TripRow) (s : Store) (acc : List Invoice),
      id ∉ rows.map (fun r => r.trip._id) →
      (batchLoop cars now em s rows acc).1.findTrip id = s.findTrip id := by
  intro rows
  induction rows with
  | nil =>
    intro s acc _
    rfl
  | cons row rest ih =>
    intro s acc hid
    rw [List.map_cons, List.mem_cons, not_or] at hid
    cases hr : (batchStep cars now em s row).2 with
    | error f => rw [batchLoop_cons_error rest acc hr]
    | ok inv =>
      rw [batchLoop_cons_ok rest acc hr, ih _ _ hid.2]
      obtain ⟨km, td, -, -, -, -, hf, -⟩ := batchStep_writes hr
      rw [hf, if_neg hid.1]

/-- A trip that already carries the `end` every row naming it would write is left as it is
by the loop. -/
theorem batchLoop_findTrip_stable (cars : List CarWithOwner) (now : Int)
    (em : String → Option ℚ) (id : Nat) (t : Trip) :
    ∀ (rows : List TripRow) (s : Store) (acc : List Invoice),
      s.findTrip id = some t →
      (∀ r ∈ rows, r.trip._id = id → ∀ km, endKmOf cars em r = some km →
        t.end_ = some { date := now, km := km }) →
      (batchLoop cars now em s rows acc).1.findTrip id = some t := by
  intro rows
  induction rows with
  | nil =>
    intro s acc ht _
    exact ht
  | cons row rest ih =>
    intro s acc ht hsame
    cases hr : (batchStep cars now em s row).2 with
    | error f =>
      rw [batchLoop_cons_error rest acc hr]
      exact ht
    | ok inv =>
      rw [batchLoop_cons_ok rest acc hr]
      refine ih _ _ ?_ (fun r hr2 => hsame r (List.mem_cons_of_mem _ hr2))
      obtain ⟨km, td, hkm, -, htd, -, hf, -⟩ := batchStep_writes hr
      rw [hf]
      by_cases hi : id = row.trip._id
      · rw [if_pos hi]
        rw [← hi, ht] at htd
        have htd2 : t = td := Option.some.inj htd
        subst htd2
        have hend := hsame row (List.mem_cons_self _ _) hi.symm km hkm
        rw [← hend]
      · rw [if_neg hi]
        exact ht

/-- A car that already carries the `currentKm` every row naming it would write keeps it
through the loop. -/
theorem batchLoop_currentKm_stable (cars : List CarWithOwner) (now : Int)
    (em : String → Option ℚ) (cid : Nat) (km : ℚ) :
    ∀ (rows : List TripRow) (s : Store) (acc : List Invoice),
      (∀ c ∈ s.cars, c._id = cid → c.currentKm = km) →
      (∀ r ∈ rows, r.carDetails._id = cid → ∀ km1, endKmOf cars em r = some km1 → km1 = km) →
      ∀ c ∈ (batchLoop cars now em s rows acc).1.cars, c._id = cid → c.currentKm = km := by
  intro rows
  induction rows with
  | nil =>
    intro s acc hs _
    exact hs
  | cons row rest ih =>
    intro s acc hs hsame
    cases hr : (batchStep cars now em s row).2 with
    | error f =>
      rw [batchLoop_cons_error rest acc hr]
      exact hs
    | ok inv =>
      rw [batchLoop_cons_ok rest acc hr]
      refine ih _ _ ?_ (fun r hr2 => hsame r (List.mem_cons_of_mem _ hr2))
      obtain ⟨km1, td, hkm, -, -, -, -, hcars, -⟩ := batchStep_writes hr
      rw [hcars]
      intro c hc hcid
      obtain ⟨x, hx, rfl⟩ := List.mem_map.mp hc
      by_cases hx2 : x._id = row.carDetails._id
      · rw [if_pos hx2] at hcid ⊢
        have h1 : row.carDetails._id = cid := by
          rw [← hx2]
          exact hcid
        exact hsame row (List.mem_cons_self _ _) h1 km1 hkm
      · rw [if_neg hx2] at hcid ⊢
        exact hs x hx hcid

/-- A loop that completes has set, for every row, the `currentKm` of the row's car to the
reading of the row. -/
theorem batchLoop_ok_cars (cars : List CarWithOwner) (now : Int) (em : String → Option ℚ) :
    ∀ (rows : List TripRow) (s : Store) (acc invs : List Invoice),
      (batchLoop cars now em s rows acc).2 = .ok invs →
      ∀ row ∈ rows, ∃ km, endKmOf cars em row = some km ∧ km ≠ 0 ∧
        ∀ c ∈ (batchLoop cars now em s rows acc).1.cars,
          c._id = row.carDetails._id → c.currentKm = km := by
  intro rows
  induction rows with
  | nil =>
    intro s acc invs _ row hrow
    cases hrow
  | cons r rest ih =>
    intro s acc invs hok row hrow
    cases hr : (batchStep cars now em s r).2 with
    | error f =>
      rw [batchLoop_cons_error rest acc hr] at hok
      cases hok
    | ok inv =>
      rw [batchLoop_cons_ok rest acc hr] at hok ⊢
      rcases List.mem_cons.mp hrow with rfl | hrest
      · obtain ⟨km, td, hkm, hne, -, -, -, hcars, -⟩ := batchStep_writes hr
        refine ⟨km, hkm, hne, ?_⟩
        refine batchLoop_currentKm_stable cars now em row.carDetails._id km rest _ _ ?_ ?_
        · rw [hcars]
          intro c hc hcid
          obtain ⟨x, hx, rfl⟩ := List.mem_map.mp hc
          by_cases hx2 : x._id = row.carDetails._id
          · rw [if_pos hx2]
          · rw [if_neg hx2] at hcid
            exact absurd hcid hx2
        · intro r2 _ hid km1 hkm1
          rw [endKmOf_congr cars em hid, hkm] at hkm1
          exact (Option.some.inj hkm1).symm
      · exact ih _ _ _ hok row hrest

/-- A loop that completes has set the `end` of every row's trip to `{date: now, km}` with
the reading of the row, when rows naming the same trip name the same car. -/
theorem batchLoop_ok_trips (cars : List CarWithOwner) (now : Int) (em : String → Option ℚ) :
    ∀ (rows : List TripRow) (s : Store) (acc invs : List Invoice),
      (∀ r1 ∈ rows, ∀ r2 ∈ rows, r1.trip._id = r2.trip._id →
        r1.carDetails._id = r2.carDetails._id) →
      (batchLoop cars now em s rows acc).2 = .ok invs →
      ∀ row ∈ rows, ∃ km td, endKmOf cars em row = some km ∧
        s.findTrip row.trip._id = some td ∧
        (batchLoop cars now em s rows acc).1.findTrip row.trip._id =
          some { td with end_ := some { date := now, km := km } } := by
  intro rows
  induction rows with
  | nil =>
    intro s acc invs _ _ row hrow
    cases hrow
  | cons r rest ih =>
    intro s acc invs hD hok row hrow
    cases hr : (batchStep cars now em s r).2 with
    | error f =>
      rw [batchLoop_cons_error rest acc hr] at hok
      cases hok
    | ok inv =>
      rw [batchLoop_cons_ok rest acc hr] at hok ⊢
      obtain ⟨km, td, hkm, -, htd, -, hf, -⟩ := batchStep_writes hr
      rcases List.mem_cons.mp hrow with rfl | hrest
      · refine ⟨km, td, hkm, htd, ?_⟩
        refine batchLoop_findTrip_stable cars now em row.trip._id _ rest _ _ ?_ ?_
        · rw [hf, if_pos rfl]
        · intro r2 hr2 hid km1 hkm1
          have hc := hD r2 (List.mem_cons_of_mem _ hr2) row (List.mem_cons_self _ _) hid
          rw [endKmOf_congr cars em hc, hkm] at hkm1
          rw [Option.some.inj hkm1]
      · have hD2 : ∀ r1 ∈ rest, ∀ r2 ∈ rest, r1.trip._id = r2.trip._id →
            r1.carDetails._id = r2.carDetails._id :=
          fun r1 h1 r2 h2 => hD r1 (List.mem_cons_of_mem _ h1) r2 (List.mem_cons_of_mem _ h2)
        obtain ⟨km2, td2, hkm2, htd2, hfin⟩ := ih _ _ _ hD2 hok row hrest
        rw [hf] at htd2
        by_cases hi : row.trip._id = r.trip._id
        · rw [if_pos hi] at htd2
          have h2 : td2 = _ := (Option.some.inj htd2).symm
          subst h2
          rw [hi]
          refine ⟨km2, td, hkm2, htd, ?_⟩
          rw [← hi]
          exact hfin
        · rw [if_neg hi] at htd2
          exact ⟨km2, td2, hkm2, htd2, hfin⟩

/-- A loop that completes has set the `end` of every row's trip, with date `now`. -/
theorem batchLoop_ok_end_set (cars : List CarWithOwner) (now : Int) (em : String → Option ℚ) :
    ∀ (rows : List TripRow) (s : Store) (acc invs : List Invoice),
      (batchLoop cars now em s rows acc).2 = .ok invs →
      ∀ row ∈ rows, ∃ t km,
        (batchLoop cars now em s rows acc).1.findTrip row.trip._id = some t ∧
        t.end_ = some { date := now, km := km } := by
  intro rows
  induction rows with
  | nil =>
    intro s acc invs _ row hrow
    cases hrow
  | cons r rest ih =>
    intro s acc invs hok row hrow
    cases hr : (batchStep cars now em s r).2 with
    | error f =>
      rw [batchLoop_cons_error rest acc hr] at hok
      cases hok
    | ok inv =>
      rw [batchLoop_cons_ok rest acc hr] at hok ⊢
      rcases List.mem_cons.mp hrow with rfl | hrest
      · obtain ⟨km, td, -, -, -, -, hf, -⟩ := batchStep_writes hr
        have h1 : (batchStep cars now em s row).1.findTrip row.trip._id =
            some { td with end_ := some { date := now, km := km } } := by
          rw [hf, if_pos rfl]
        obtain ⟨e, h2, h3⟩ := batchLoop_findTrip cars now em rest _ (acc ++ [inv]) _ _ h1
        rcases h3 with h3 | ⟨km2, h3⟩
        · exact ⟨_, km, h2, h3⟩
        · exact ⟨_, km2, h2, h3⟩
      · exact ih _ _ _ hok row hrest

/-- A loop that completes returned, after `acc`, one invoice per row, in row order, each
naming the trip of its row. -/
theorem batchLoop_ok_trip_ids (cars : List CarWithOwner) (now : Int) (em : String → Option ℚ)
    (rows : List TripRow) (s : Store) (acc invs : List Invoice)
    (hok : (batchLoop cars now em s rows acc).2 = .ok invs) :
    ∃ created, invs = acc ++ created ∧
      (batchLoop cars now em s rows acc).1.invoices = s.invoices ++ created ∧
      List.Forall₂ (fun row inv => inv.trip = row.trip._id) rows created := by
  obtain ⟨created, h1, h2, h3⟩ := batchLoop_created cars now em rows s acc
  obtain ⟨h4, h5⟩ := h3 invs hok
  rw [h5, List.take_length] at h2
  refine ⟨created, h4, h1, ?_⟩
  refine List.Forall₂.imp ?_ h2
  rintro row inv ⟨s0, h0⟩
  obtain ⟨km, td, -, -, -, h6, -⟩ := batchStep_writes h0
  exact h6

/-- The loop keeps every stored car stored, changed at most in `currentKm`. -/
theorem batchLoop_findCar (cars : List CarWithOwner) (now : Int) (em : String → Option ℚ) :
    ∀ (rows : List TripRow) (s : Store) (acc : List Invoice) (cid : Nat) (c : Car),
      s.findCar cid = some c →
      ∃ km, (batchLoop cars now em s rows acc).1.findCar cid =
        some { c with currentKm := km } := by
  intro rows
  induction rows with
  | nil =>
    intro s acc cid c hc
    exact ⟨c.currentKm, hc⟩
  | cons r rest ih =>
    intro s acc cid c hc
    cases hr : (batchStep cars now em s r).2 with
    | error f =>
      rw [batchLoop_cons_error rest acc hr]
      exact ⟨c.currentKm, hc⟩
    | ok inv =>
      rw [batchLoop_cons_ok rest acc hr]
      obtain ⟨km, td, -, -, -, -, -, hcars, -⟩ := batchStep_writes hr
      have h1 : (batchStep cars now em s r).1.findCar cid =
          some (if c._id = r.carDetails._id then { c with currentKm := km } else c) := by
        simp only [Store.findCar, hcars, List.find?_map]
        have hcomp : ((fun x : Car => decide (x._id = cid)) ∘ fun x : Car =>
            if x._id = r.carDetails._id then { x with currentKm := km } else x) =
            fun x : Car => decide (x._id = cid) := by
          funext x
          by_cases hx : x._id = r.carDetails._id <;> simp [hx]
        rw [hcomp]
        have hc2 : List.find? (fun x : Car => decide (x._id = cid)) s.cars = some c := hc
        rw [hc2]
        rfl
      obtain ⟨km2, h2⟩ := ih _ (acc ++ [inv]) cid _ h1
      refine ⟨km2, ?_⟩
      rw [h2]
      split <;> rfl

/-! ## Abort and success of the batch -/

/-- C11: batch abort semantics. If the loop has completed positions `< k` (the rows `pre`) and
reaches at position `k` a row whose car is missing or whose owner has no reading (none, or
0), then the loop, and the handler running it, fail with that error (`Car not found.` or
`End kilometer not provided ...`) and leave the store exactly as positions `< k` wrote it:
the invoices added are those of positions `< k` only, every trip not at a position `< k` is
as before, no `generated` sequence is changed, and the trip ends and car `currentKm`
written for positions `< k` are still there. -/
theorem batch_abort_keeps_prefix (cars : List CarWithOwner) (now : Int)
    (em : String → Option ℚ) (s : Store) (pre : List TripRow) (row : TripRow)
    (post : List TripRow) (invs : List Invoice)
    (hpre : (batchLoop cars now em s pre []).2 = .ok invs)
    (hcase : cars.find? (fun c => c.car._id = row.carDetails._id) = none ∨
      ∃ cw owner, cars.find? (fun c => c.car._id = row.carDetails._id) = some cw ∧
        cw.owner = some owner ∧ (em owner.email = none ∨ em owner.email = some 0)) :
    ∃ f,
      batchLoop cars now em s (pre ++ row :: post) [] =
        ((batchLoop cars now em s pre []).1, .error f) ∧
      (cars.find? (fun c => c.car._id = row.carDetails._id) = none → f = carNotFound) ∧
      (∀ cw owner, cars.find? (fun c => c.car._id = row.carDetails._id) = some cw →
        cw.owner = some owner → f = endKmMissing owner.email) ∧
      (∀ getMonth e, cars = s.findCarsPopulated → em = endMap e → e ≠ [] →
        s.aggregateTrips getMonth now = pre ++ row :: post →
        generateInvoices getMonth s now (some e) =
          ((batchLoop cars now em s pre []).1, .error f)) ∧
      (batchLoop cars now em s pre []).1.invoices = s.invoices ++ invs ∧
      List.Forall₂ (fun r inv => inv.trip = r.trip._id) pre invs ∧
      (∀ id, id ∉ pre.map (fun r => r.trip._id) →
        (batchLoop cars now em s pre []).1.findTrip id = s.findTrip id) ∧
      (∀ id t, s.findTrip id = some t →
        ∃ t1, (batchLoop cars now em s pre []).1.findTrip id = some t1 ∧
          t1.generated = t.generated) ∧
      (∀ r ∈ pre,
        (∃ t km, (batchLoop cars now em s pre []).1.findTrip r.trip._id = some t ∧
          t.end_ = some { date := now, km := km }) ∧
        ∃ km, endKmOf cars em r = some km ∧
          ∀ c ∈ (batchLoop cars now em s pre []).1.cars,
            c._id = r.carDetails._id → c.currentKm = km) := by
  have hstep : ∃ f, (batchStep cars now em (batchLoop cars now em s pre []).1 row).2 =
      .error f ∧
      (cars.find? (fun c => c.car._id = row.carDetails._id) = none → f = carNotFound) ∧
      (∀ cw owner, cars.find? (fun c => c.car._id = row.carDetails._id) = some cw →
        cw.owner = some owner → f = endKmMissing owner.email) := by
    rcases hcase with h1 | ⟨cw, owner, h1, h2, h3⟩
    · refine ⟨carNotFound, by simp [batchStep, h1], fun _ => rfl, ?_⟩
      intro cw owner h
      rw [h1] at h
      cases h
    · refine ⟨endKmMissing owner.email, ?_, ?_, ?_⟩
      · rcases h3 with h3 | h3 <;> simp [batchStep, h1, h2, h3]
      · intro h
        rw [h1] at h
        cases h
      · intro cw1 owner1 hf ho
        rw [h1] at hf
        have hcw : cw1 = cw := (Option.some.inj hf).symm
        subst hcw
        rw [h2] at ho
        rw [Option.some.inj ho]
  obtain ⟨f, hf, hk1, hk2⟩ := hstep
  have hloop : batchLoop cars now em s (pre ++ row :: post) [] =
      ((batchLoop cars now em s pre []).1, .error f) := by
    rw [batchLoop_append cars now em (row :: post) pre s [] invs hpre,
      batchLoop_cons_error post invs hf]
  obtain ⟨created, hc1, hc2, hc3⟩ := batchLoop_ok_trip_ids cars now em pre s [] invs hpre
  have hcr : created = invs := by simpa using hc1.symm
  rw [hcr] at hc2 hc3
  refine ⟨f, hloop, hk1, hk2, ?_, hc2, hc3, ?_, ?_, ?_⟩
  · intro getMonth e hcars hem he hrows
    have hrow : row ∈ s.aggregateTrips getMonth now := by
      rw [hrows]
      exact List.mem_append_right _ (List.mem_cons_self _ _)
    have hne : s.findCarsPopulated.isEmpty = false := by
      have hc := (mem_aggregateTrips hrow).2.2.1
      cases hcs : s.cars with
      | nil => rw [hcs] at hc; cases hc
      | cons c cs => simp [Store.findCarsPopulated, hcs]
    have hrne : (s.aggregateTrips getMonth now).isEmpty = false := by
      rw [hrows]
      cases pre <;> rfl
    have hene : e.isEmpty = false := by
      cases e with
      | nil => exact absurd rfl he
      | cons r rs => rfl
    unfold generateInvoices
    simp only [hne, hrne, hene, Bool.false_eq_true, if_false]
    rw [← hcars, ← hem, hrows, hloop]
  · intro id hid
    exact batchLoop_findTrip_of_not_mem cars now em id pre s [] hid
  · intro id t ht
    obtain ⟨e1, h1, -⟩ := batchLoop_findTrip cars now em pre s [] id t ht
    exact ⟨_, h1, rfl⟩
  · intro r hr
    refine ⟨batchLoop_ok_end_set cars now em pre s [] invs hpre r hr, ?_⟩
    obtain ⟨km, h1, -, h2⟩ := batchLoop_ok_cars cars now em pre s [] invs hpre r hr
    exact ⟨km, h1, h2⟩

theorem exStore2_rows :
    exStore2.aggregateTrips exGetMonth exNow = [exRow] ++ exRow2 :: [] := by
  simp [Store.aggregateTrips, tripMatch, exStore2, exTrip, exTrip2, exCar, exCar2, exOwner,
    exOwner2, exRow, exRow2]

theorem exStore2_first_row :
    (batchLoop exStore2.findCarsPopulated exNow (endMap [exReading]) exStore2 [exRow] []).2 =
      .ok [exBatchInvoice] := by
  simp [batchLoop, batchStep, endMap, exStore2, exTrip, exTrip2, exCar, exCar2, exOwner,
    exOwner2, exRow, exReading, exBatchInvoice, Store.findCarsPopulated, Store.findOwner,
    Store.findTrip, Store.saveTrip, Store.createInvoice, Store.setCurrentKm, dayCount,
    msPerDay, exNow]
  norm_num

/-- Witness of C11 on the two-owner sample store: a reading is supplied for the first owner
only, so the run bills the first trip and aborts at the second. -/
theorem batch_abort_keeps_prefix_witness :
    (batchLoop exStore2.findCarsPopulated exNow (endMap [exReading]) exStore2 [exRow] []).2 =
      .ok [exBatchInvoice] ∧
    (generateInvoices exGetMonth exStore2 exNow (some [exReading])).2 =
      .error (endKmMissing "ravi@example.org") ∧
    (generateInvoices exGetMonth exStore2 exNow (some [exReading])).1.invoices =
      [exBatchInvoice] := by
  have hfind : exStore2.findCarsPopulated.find? (fun c => c.car._id = exRow2.carDetails._id) =
      some { car := exCar2, owner := some exOwner2 } := by
    simp [Store.findCarsPopulated, Store.findOwner, exStore2, exRow2, exCar, exCar2, exOwner,
      exOwner2]
  obtain ⟨f, -, -, hk, htop, hinv, -⟩ :=
    batch_abort_keeps_prefix exStore2.findCarsPopulated exNow (endMap [exReading]) exStore2
      [exRow] exRow2 [] [exBatchInvoice] exStore2_first_row
      (Or.inr ⟨_, exOwner2, hfind, rfl, Or.inl (by simp [endMap, exReading, exOwner2])⟩)
  have hf : f = endKmMissing "ravi@example.org" := hk _ exOwner2 hfind rfl
  have h := htop exGetMonth [exReading] rfl rfl (by simp) exStore2_rows
  refine ⟨exStore2_first_row, ?_, ?_⟩
  · rw [h, hf]
  · rw [h, hinv]
    rfl

/-- A batch run that succeeds completed the loop and then pushed the marker. -/
theorem generateInvoices_ok_run {getMonth : Int → Int} {s : Store} {now : Int}
    {e : List OwnerReading} {invs : List Invoice}
    (hok : (generateInvoices getMonth s now (some e)).2 = .ok invs) :
    (batchLoop s.findCarsPopulated now (endMap e) s (s.aggregateTrips getMonth now) []).2 =
      .ok invs ∧
    (generateInvoices getMonth s now (some e)).1 =
      (batchLoop s.findCarsPopulated now (endMap e) s
        (s.aggregateTrips getMonth now) []).1.pushGenerated
          ((s.aggregateTrips getMonth now).map (fun r => r.trip._id)) now := by
  rcases generateInvoices_run getMonth s now (some e) with
    ⟨f, h⟩ | ⟨e1, he1, ⟨f, -, h⟩ | ⟨invs1, hl, h⟩⟩
  · rw [h] at hok
    cases hok
  · rw [h] at hok
    cases hok
  · cases he1
    rw [h] at hok
    have hi : invs1 = invs := Except.ok.inj hok
    rw [hi] at hl h
    exact ⟨hl, by rw [h]⟩

theorem findTrip_of_mem {s : Store} (hut : s.uniqueTripIds) {t : Trip} (ht : t ∈ s.trips) :
    s.findTrip t._id = some t :=
  find_eq_of_nodup (fun x : Trip => x._id) s.trips t hut ht

theorem findCar_of_mem {s : Store} (hu : s.uniqueIds) {c : Car} (hc : c ∈ s.cars) :
    s.findCar c._id = some c :=
  find_eq_of_nodup (fun x : Car => x._id) s.cars c hu.1 hc

/-- With unique ids, the reading of a row of the aggregation is the one kept under the email
of the row's own owner. -/
theorem endKmOf_of_row {s : Store} {getMonth : Int → Int} {now : Int} {row : TripRow}
    (em : String → Option ℚ) (hu : s.uniqueIds) (hrow : row ∈ s.aggregateTrips getMonth now) :
    endKmOf s.findCarsPopulated em row = em row.ownerDetails.email := by
  simp only [endKmOf, find_populated_of_row hu hrow]

/-- C12: in a store with unique ids, after a successful batch run exactly one invoice per
selected trip is returned, in query order; every selected trip is stored with
`end = {date: now, km: its owner's reading}` and with `now` appended to `generated`, its
car has `currentKm` equal to that reading, and every other trip is stored as before. -/
theorem batch_success_effects (getMonth : Int → Int) (s : Store) (now : Int)
    (e : List OwnerReading) (invs : List Invoice) (hu : s.uniqueIds) (hut : s.uniqueTripIds)
    (hok : (generateInvoices getMonth s now (some e)).2 = .ok invs) :
    List.Forall₂ (fun row inv => inv.trip = row.trip._id)
      (s.aggregateTrips getMonth now) invs ∧
    (∀ row ∈ s.aggregateTrips getMonth now,
      ∃ km, endMap e row.ownerDetails.email = some km ∧
        (generateInvoices getMonth s now (some e)).1.findTrip row.trip._id =
          some { row.trip with
            end_ := some { date := now, km := km }
            generated := row.trip.generated ++ [now] } ∧
        ∃ c, (generateInvoices getMonth s now (some e)).1.findCar row.trip.car = some c ∧
          c.currentKm = km) ∧
    (∀ id t, s.findTrip id = some t →
      id ∉ (s.aggregateTrips getMonth now).map (fun r => r.trip._id) →
      (generateInvoices getMonth s now (some e)).1.findTrip id = some t) := by
  obtain ⟨hloop, hstore⟩ := generateInvoices_ok_run hok
  have hD : ∀ r1 ∈ s.aggregateTrips getMonth now, ∀ r2 ∈ s.aggregateTrips getMonth now,
      r1.trip._id = r2.trip._id → r1.carDetails._id = r2.carDetails._id := by
    intro r1 h1 r2 h2 hid
    obtain ⟨ht1, -, -, hc1, -⟩ := mem_aggregateTrips h1
    obtain ⟨ht2, -, -, hc2, -⟩ := mem_aggregateTrips h2
    have hf1 := findTrip_of_mem hut ht1
    have hf2 := findTrip_of_mem hut ht2
    rw [hid, hf2] at hf1
    have heq : r2.trip = r1.trip := Option.some.inj hf1
    rw [hc1, hc2, heq]
  refine ⟨?_, ?_, ?_⟩
  · obtain ⟨created, hc1, -, hc3⟩ := batchLoop_ok_trip_ids _ _ _ _ _ _ _ hloop
    have hcr : created = invs := by simpa using hc1.symm
    rw [hcr] at hc3
    exact hc3
  · intro row hrow
    obtain ⟨ht, -, hc, hcid, -⟩ := mem_aggregateTrips hrow
    obtain ⟨km, td, hkm, htd, hfin⟩ := batchLoop_ok_trips _ _ _ _ _ _ _ hD hloop row hrow
    rw [endKmOf_of_row _ hu hrow] at hkm
    rw [findTrip_of_mem hut ht] at htd
    have htd2 : td = row.trip := (Option.some.inj htd).symm
    subst htd2
    have hmemid : row.trip._id ∈ (s.aggregateTrips getMonth now).map (fun r => r.trip._id) :=
      List.mem_map.mpr ⟨row, hrow, rfl⟩
    refine ⟨km, hkm, ?_, ?_⟩
    · rw [hstore, findTrip_pushGenerated, hfin]
      simp only [Option.map_some']
      rw [if_pos hmemid]
    · obtain ⟨km1, hkm1, -, hcars⟩ := batchLoop_ok_cars _ _ _ _ _ _ _ hloop row hrow
      rw [endKmOf_of_row _ hu hrow, hkm] at hkm1
      have hk : km1 = km := (Option.some.inj hkm1).symm
      subst hk
      have hfc : s.findCar row.trip.car = some row.carDetails := by
        rw [← hcid]
        exact findCar_of_mem hu hc
      obtain ⟨km2, hfc2⟩ := batchLoop_findCar s.findCarsPopulated now (endMap e)
        (s.aggregateTrips getMonth now) s [] _ _ hfc
      have hfc3 : (generateInvoices getMonth s now (some e)).1.findCar row.trip.car =
          some { row.carDetails with currentKm := km2 } := by
        rw [hstore]
        exact hfc2
      refine ⟨_, hfc3, ?_⟩
      have hmem := List.mem_of_find?_eq_some hfc2
      exact hcars _ hmem rfl
  · intro id t ht hid
    rw [hstore, findTrip_pushGenerated,
      batchLoop_findTrip_of_not_mem _ _ _ id _ _ _ hid, ht]
    simp only [Option.map_some']
    rw [findTrip_id ht, if_neg hid]

/-- Witness of C12 on the sample store: after the sample run, trip 3 ends at 1200 km, carries
the marker, and its car reads 1200 km. -/
theorem batch_success_effects_witness :
    exStore.uniqueIds ∧ exStore.uniqueTripIds ∧
    (generateInvoices exGetMonth exStore exNow (some [exReading])).2 = .ok [exBatchInvoice] ∧
    ∃ km, endMap [exReading] exRow.ownerDetails.email = some km ∧
      (generateInvoices exGetMonth exStore exNow (some [exReading])).1.findTrip 3 =
        some { exTrip with
          end_ := some { date := exNow, km := km }
          generated := exTrip.generated ++ [exNow] } ∧
      ∃ c, (generateInvoices exGetMonth exStore exNow (some [exReading])).1.findCar 7 = some c ∧
        c.currentKm = km :=
  ⟨by decide, by decide, exStore_generateInvoices,
    (batch_success_effects exGetMonth exStore exNow [exReading] [exBatchInvoice] (by decide)
      (by decide) exStore_generateInvoices).2.1 exRow exRow_mem⟩

/-! ## The handler `generateInvoice` -/

/-- When `generateInvoice` returns invoices, there is one per trip of the car, in the order
of `car.trip`, each the result of `generateInv` on the first reading whose `id` is that
trip. -/
theorem generateInvoiceLoop_ok (clock : Nat → Int) (status : Bool) (end_ : List EndReading) :
    ∀ (trips : List Nat) (s : Store) (i : Nat) (acc invs : List Invoice),
      (generateInvoiceLoop clock status end_ s i trips acc).2 = .ok invs →
      ∃ created, invs = acc ++ created ∧
        List.Forall₂ (fun trip inv => ∃ e s0 now,
            (end_.filter (fun t => t.id = trip)).head? = some e ∧
            (generateInv s0 now trip (some e) status).2 = .ok inv) trips created := by
  intro trips
  induction trips with
  | nil =>
    intro s i acc invs h
    simp only [generateInvoiceLoop] at h
    exact ⟨[], by simpa using (Except.ok.inj h).symm, List.Forall₂.nil⟩
  | cons trip rest ih =>
    intro s i acc invs h
    rw [generateInvoiceLoop] at h
    cases hg : generateInv s (clock i) trip (end_.filter (fun t => t.id = trip)).head? status with
    | mk s1 r =>
      cases r with
      | error f =>
        simp only [hg] at h
        cases h
      | ok inv =>
        simp only [hg] at h
        obtain ⟨created, hc, hall⟩ := ih _ _ _ _ h
        have hok : (generateInv s (clock i) trip
            (end_.filter (fun t => t.id = trip)).head? status).2 = .ok inv := by rw [hg]
        obtain ⟨-, -, e, -, -, he, -⟩ := generateInv_ok_inv hok
        refine ⟨inv :: created, by simpa using hc, List.Forall₂.cons ⟨e, s, clock i, he, ?_⟩ hall⟩
        rw [← he]
        exact hok

/-- C15, at its failing input: for the sample car, whose only trip is 3, and an end list
without a reading for trip 3, `generateInvoice` ends in the `TypeError` of reading `end.km`
of `undefined`, not in an `ApiError`. -/
theorem generateInvoice_missing_reading_crashes :
    generateInvoice (fun _ => exNow) exStore "KA01AB1234" true [] =
      (exStore, .error (.typeError "end.km")) := by
  simp [generateInvoice, generateInvoiceLoop, generateInv, exStore, exCar, exTrip,
    Store.findTrip]

/-- A trip of the car without a reading in the end list ends the loop in that `TypeError`,
whatever the store holds for it. -/
theorem generateInvoiceLoop_missing_reading (clock : Nat → Int) (status : Bool)
    (end_ : List EndReading) (s : Store) (i : Nat) (trip : Nat) (rest : List Nat)
    (acc : List Invoice) (t : Trip) (ht : s.findTrip trip = some t)
    (hno : ∀ r ∈ end_, r.id ≠ trip) :
    generateInvoiceLoop clock status end_ s i (trip :: rest) acc =
      (s, .error (.typeError "end.km")) := by
  have hf : end_.filter (fun r => decide (r.id = trip)) = [] := by
    rw [List.filter_eq_nil_iff]
    intro r hr
    simpa using hno r hr
  simp [generateInvoiceLoop, hf, generateInv, ht]

/-! ## First occurrences -/

theorem mem_firstSeen {α : Type} [DecidableEq α] (x : α) :
    ∀ l : List α, x ∈ firstSeen l ↔ x ∈ l := by
  intro l
  induction l with
  | nil => simp [firstSeen]
  | cons a l ih =>
    simp only [firstSeen, List.mem_cons, List.mem_filter, ih, decide_eq_true_eq]
    by_cases h : x = a
    · simp [h]
    · simp [h]

theorem firstSeen_nodup {α : Type} [DecidableEq α] : ∀ l : List α, (firstSeen l).Nodup := by
  intro l
  induction l with
  | nil => simp [firstSeen]
  | cons a l ih =>
    rw [firstSeen, List.nodup_cons]
    exact ⟨by simp [List.mem_filter], ih.filter _⟩

theorem firstSeen_concat {α : Type} [DecidableEq α] (a : α) :
    ∀ l : List α, firstSeen (l ++ [a]) = if a ∈ l then firstSeen l else firstSeen l ++ [a] := by
  intro l
  induction l with
  | nil => simp [firstSeen]
  | cons b l ih =>
    rw [List.cons_append, firstSeen, ih]
    by_cases hab : a = b
    · subst hab
      by_cases hal : a ∈ l
      · simp [hal, firstSeen]
      · simp [hal, firstSeen, List.filter_append]
    · by_cases hal : a ∈ l
      · simp [hal, hab, firstSeen]
      · simp [hal, hab, firstSeen, List.filter_append]

/-! ## Finding and updating an entry by its key -/

theorem findIdx?_map_of_not_mem {κ β : Type} [DecidableEq κ] (key : β → κ) (F : κ → β)
    (k : κ) :
    ∀ (ks : List κ) (n : Nat), (∀ k2 ∈ ks, key (F k2) = k2) → k ∉ ks →
      (ks.map F).findIdx? (fun b => decide (key b = k)) n = none := by
  intro ks
  induction ks with
  | nil => intro n _ _; rfl
  | cons a ks ih =>
    intro n hkey hk
    rw [List.mem_cons, not_or] at hk
    have ha : ¬ key (F a) = k := by
      rw [hkey a (List.mem_cons_self _ _)]
      exact fun h => hk.1 h.symm
    rw [List.map_cons, List.findIdx?_cons]
    simp only [ha, decide_False, Bool.false_eq_true, if_false]
    exact ih (n + 1) (fun k2 h2 => hkey k2 (List.mem_cons_of_mem _ h2)) hk.2

/-- In a list of entries with distinct keys, updating the entry found by its key is mapping
the update over that key alone. -/
theorem modify_map_of_mem {κ β : Type} [DecidableEq κ] (key : β → κ) (F F2 : κ → β)
    (f : β → β) (k : κ) :
    ∀ (ks : List κ), (∀ k2 ∈ ks, key (F k2) = k2) → ks.Nodup → k ∈ ks →
      (∀ k2 ∈ ks, k2 ≠ k → F2 k2 = F k2) → F2 k = f (F k) →
      ∃ i, (ks.map F).findIdx? (fun b => decide (key b = k)) = some i ∧
        (ks.map F).modify f i = ks.map F2 := by
  intro ks
  induction ks with
  | nil => intro _ _ hk; cases hk
  | cons a ks ih =>
    intro hkey hnd hk hF hFk
    rw [List.nodup_cons] at hnd
    by_cases hak : a = k
    · subst hak
      refine ⟨0, ?_, ?_⟩
      · rw [List.map_cons, List.findIdx?_cons]
        simp [hkey a (List.mem_cons_self _ _)]
      · have htail : ks.map F = ks.map F2 := by
          apply List.map_congr_left
          intro k2 h2
          have hne : k2 ≠ a := fun h => hnd.1 (h ▸ h2)
          exact (hF k2 (List.mem_cons_of_mem _ h2) hne).symm
        simp [List.modify, List.modifyTailIdx, List.modifyHead, hFk, htail]
    · have hk2 : k ∈ ks := by
        rcases List.mem_cons.mp hk with h | h
        · exact absurd h.symm hak
        · exact h
      obtain ⟨i, h1, h2⟩ := ih (fun k2 h2 => hkey k2 (List.mem_cons_of_mem _ h2)) hnd.2 hk2
        (fun k2 h2 hne => hF k2 (List.mem_cons_of_mem _ h2) hne) hFk
      refine ⟨i + 1, ?_, ?_⟩
      · rw [List.map_cons, List.findIdx?_cons]
        have ha : ¬ key (F a) = k := by
          rw [hkey a (List.mem_cons_self _ _)]
          exact hak
        simp only [ha, decide_False, Bool.false_eq_true, if_false]
        rw [List.findIdx?_succ, h1]
        rfl
      · rw [List.map_cons, List.map_cons, List.modify_succ_cons, h2,
          hF a (List.mem_cons_self _ _) hak]

theorem findOwnerIndex_cons_some (po o : Owner) (g : OwnerEntry) (rest : List OwnerEntry)
    (ho : g.owner = some o) :
    findOwnerIndex (some po) (g :: rest) =
      if o._id = po._id then .ok (some 0)
      else
        match findOwnerIndex (some po) rest with
        | .ok (some i) => .ok (some (i + 1))
        | r => r := by
  obtain ⟨owner, invoices⟩ := g
  simp only at ho
  subst ho
  rw [findOwnerIndex]
  rfl

theorem findOwnerIndex_of_not_mem (po : Owner) (G : Option Nat → OwnerEntry) :
    ∀ (ks : List (Option Nat)),
      (∀ k2 ∈ ks, ∃ o, (G k2).owner = some o ∧ k2 = some o._id) → some po._id ∉ ks →
      findOwnerIndex (some po) (ks.map G) = .ok none := by
  intro ks
  induction ks with
  | nil => intro _ _; rfl
  | cons a ks ih =>
    intro hkey hk
    rw [List.mem_cons, not_or] at hk
    obtain ⟨o, ho, hao⟩ := hkey a (List.mem_cons_self _ _)
    have hne : ¬ o._id = po._id := by
      intro h
      apply hk.1
      rw [hao, h]
    rw [List.map_cons, findOwnerIndex_cons_some po o _ _ ho, if_neg hne,
      ih (fun k2 h2 => hkey k2 (List.mem_cons_of_mem _ h2)) hk.2]

theorem findOwnerIndex_of_mem (po : Owner) (G G2 : Option Nat → OwnerEntry)
    (f : OwnerEntry → OwnerEntry) :
    ∀ (ks : List (Option Nat)),
      (∀ k2 ∈ ks, ∃ o, (G k2).owner = some o ∧ k2 = some o._id) → ks.Nodup →
      some po._id ∈ ks → (∀ k2 ∈ ks, k2 ≠ some po._id → G2 k2 = G k2) →
      G2 (some po._id) = f (G (some po._id)) →
      ∃ i, findOwnerIndex (some po) (ks.map G) = .ok (some i) ∧
        (ks.map G).modify f i = ks.map G2 := by
  intro ks
  induction ks with
  | nil => intro _ _ hk; cases hk
  | cons a ks ih =>
    intro hkey hnd hk hG hGk
    rw [List.nodup_cons] at hnd
    obtain ⟨o, ho, hao⟩ := hkey a (List.mem_cons_self _ _)
    by_cases hak : a = some po._id
    · have hid : o._id = po._id := by
        rw [hao] at hak
        exact Option.some.inj hak
      refine ⟨0, ?_, ?_⟩
      · rw [List.map_cons, findOwnerIndex_cons_some po o _ _ ho, if_pos hid]
      · have htail : ks.map G = ks.map G2 := by
          apply List.map_congr_left
          intro k2 h2
          have hne : k2 ≠ some po._id := fun h => hnd.1 (hak ▸ h ▸ h2)
          exact (hG k2 (List.mem_cons_of_mem _ h2) hne).symm
        simp [List.modify, List.modifyTailIdx, List.modifyHead, hak, hGk, htail]
    · have hk2 : some po._id ∈ ks := by
        rcases List.mem_cons.mp hk with h | h
        · exact absurd h.symm hak
        · exact h
      obtain ⟨i, h1, h2⟩ := ih (fun k2 h2 => hkey k2 (List.mem_cons_of_mem _ h2)) hnd.2 hk2
        (fun k2 h2 hne => hG k2 (List.mem_cons_of_mem _ h2) hne) hGk
      have hne : ¬ o._id = po._id := by
        intro h
        apply hak
        rw [hao, h]
      refine ⟨i + 1, ?_, ?_⟩
      · rw [List.map_cons, findOwnerIndex_cons_some po o _ _ ho, if_neg hne, h1]
      · rw [List.map_cons, List.map_cons, List.modify_succ_cons, h2,
          hG a (List.mem_cons_self _ _) hak]

/-! ## The forEach pass computes the reference grouping -/

theorem referenceLines_concat (d : Invoice → Int) (done : List PopulatedInvoice)
    (p : PopulatedInvoice) (k : Option Nat) (m : String) :
    referenceLines d (done ++ [p]) k m =
      referenceLines d done k m ++
        (if p.ownerId = k ∧ p.invoice.model = m then [invoiceLine d p.invoice] else []) := by
  simp only [referenceLines, List.filter_append, List.map_append]
  by_cases h : p.ownerId = k ∧ p.invoice.model = m
  · simp [List.filter_cons, h]
  · simp [List.filter_cons, h]

theorem referenceEntry_concat_of_ne (d : Invoice → Int) (done : List PopulatedInvoice)
    (p : PopulatedInvoice) (k : Option Nat) (h : p.ownerId ≠ k) :
    referenceEntry d (done ++ [p]) k = referenceEntry d done k := by
  have h1 : (done ++ [p]).filter (fun q => decide (q.ownerId = k)) =
      done.filter (fun q => decide (q.ownerId = k)) := by
    simp [List.filter_append, List.filter_cons, h]
  have h2 : ∀ m, referenceLines d (done ++ [p]) k m = referenceLines d done k m := by
    intro m
    rw [referenceLines_concat]
    simp [h]
  have h3 : (done ++ [p]).find? (fun q => decide (q.ownerId = k)) =
      done.find? (fun q => decide (q.ownerId = k)) := by
    simp [List.find?_append, List.find?_cons, h]
  simp only [referenceEntry, referenceModels, h1, h2, h3]

theorem referenceEntry_concat_new (d : Invoice → Int) (done : List PopulatedInvoice)
    (p : PopulatedInvoice) (h : p.ownerId ∉ done.map (fun q => q.ownerId)) :
    referenceEntry d (done ++ [p]) p.ownerId =
      { owner := p.owner
        invoices := [{ model := p.invoice.model, invoice := [invoiceLine d p.invoice] }] } := by
  have hno : ∀ q ∈ done, ¬ q.ownerId = p.ownerId := by
    intro q hq heq
    exact h (List.mem_map.mpr ⟨q, hq, heq⟩)
  have h1 : done.filter (fun q => decide (q.ownerId = p.ownerId)) = [] := by
    rw [List.filter_eq_nil_iff]
    intro q hq
    simpa using hno q hq
  have h2 : done.find? (fun q => decide (q.ownerId = p.ownerId)) = none := by
    rw [List.find?_eq_none]
    intro q hq
    simpa using hno q hq
  have h3 : referenceLines d done p.ownerId p.invoice.model = [] := by
    simp only [referenceLines, List.map_eq_nil_iff, List.filter_eq_nil_iff]
    intro q hq
    simp [hno q hq]
  simp [referenceEntry, referenceModels, referenceLines_concat, List.filter_append,
    List.find?_append, List.filter_cons, List.find?_cons, h1, h2, h3, firstSeen]

theorem referenceEntry_concat_old (d : Invoice → Int) (done : List PopulatedInvoice)
    (p : PopulatedInvoice) (h : p.ownerId ∈ done.map (fun q => q.ownerId)) :
    referenceEntry d (done ++ [p]) p.ownerId =
      addToOwner d p.invoice (referenceEntry d done p.ownerId) := by
  obtain ⟨q0, hq0, hq0k⟩ := List.mem_map.mp h
  have hfind : (done ++ [p]).find? (fun q => decide (q.ownerId = p.ownerId)) =
      done.find? (fun q => decide (q.ownerId = p.ownerId)) := by
    rw [List.find?_append]
    cases hf : done.find? (fun q => decide (q.ownerId = p.ownerId)) with
    | none =>
      have := List.find?_eq_none.mp hf q0 hq0
      simp [hq0k] at this
    | some q => rfl
  have hfilter : (done ++ [p]).filter (fun q => decide (q.ownerId = p.ownerId)) =
      done.filter (fun q => decide (q.ownerId = p.ownerId)) ++ [p] := by
    simp [List.filter_append, List.filter_cons]
  have hkey : ∀ m ∈ firstSeen ((done.filter (fun q => decide (q.ownerId = p.ownerId))).map
      (fun q => q.invoice.model)),
      (fun b : ModelEntry => b.model)
        ((fun m => ({ model := m, invoice := referenceLines d done p.ownerId m } : ModelEntry))
          m) = m := fun _ _ => rfl
  simp only [referenceEntry, referenceModels, addToOwner, hfind, hfilter, List.map_append,
    List.map_cons, List.map_nil, firstSeen_concat]
  by_cases hm : p.invoice.model ∈
      (done.filter (fun q => decide (q.ownerId = p.ownerId))).map (fun q => q.invoice.model)
  · rw [if_pos hm]
    obtain ⟨i, hi1, hi2⟩ := modify_map_of_mem (fun b : ModelEntry => b.model)
      (fun m => { model := m, invoice := referenceLines d done p.ownerId m })
      (fun m => { model := m, invoice := referenceLines d (done ++ [p]) p.ownerId m })
      (fun m => { m with invoice := m.invoice ++ [invoiceLine d p.invoice] })
      p.invoice.model _ hkey (firstSeen_nodup _) ((mem_firstSeen _ _).mpr hm)
      (by
        intro m _ hne
        have hne2 : ¬ p.invoice.model = m := fun h2 => hne h2.symm
        simp [referenceLines_concat, hne2])
      (by simp [referenceLines_concat])
    rw [hi1]
    simp only [hi2]
  · rw [if_neg hm]
    have hnone := findIdx?_map_of_not_mem (fun b : ModelEntry => b.model)
      (fun m => { model := m, invoice := referenceLines d done p.ownerId m })
      p.invoice.model _ 0 hkey (fun h2 => hm ((mem_firstSeen _ _).mp h2))
    rw [hnone]
    simp only [List.map_append, List.map_cons, List.map_nil]
    have hold : ∀ m ∈ firstSeen ((done.filter
        (fun q => decide (q.ownerId = p.ownerId))).map (fun q => q.invoice.model)),
        ({ model := m, invoice := referenceLines d (done ++ [p]) p.ownerId m } : ModelEntry) =
          { model := m, invoice := referenceLines d done p.ownerId m } := by
      intro m hmem
      have hne : ¬ p.invoice.model = m := by
        intro h2
        apply hm
        rw [h2]
        exact (mem_firstSeen _ _).mp hmem
      simp [referenceLines_concat, hne]
    have hnew : referenceLines d done p.ownerId p.invoice.model = [] := by
      simp only [referenceLines, List.map_eq_nil_iff, List.filter_eq_nil_iff]
      intro q hq
      simp only [decide_eq_true_eq, not_and]
      intro hk hmod
      apply hm
      exact List.mem_map.mpr ⟨q, List.mem_filter.mpr ⟨hq, by simpa using hk⟩, hmod⟩
    rw [List.map_congr_left hold]
    simp [referenceLines_concat, hnew]

/-- Every key of the reference grouping is the id of the owner its entry holds, when every
invoice has its owner. -/
theorem referenceEntry_owner (d : Invoice → Int) (all : List PopulatedInvoice)
    (hown : ∀ q ∈ all, q.owner.isSome = true) (k : Option Nat)
    (hk : k ∈ all.map (fun q => q.ownerId)) :
    ∃ o, (referenceEntry d all k).owner = some o ∧ k = some o._id := by
  obtain ⟨q0, hq0, hq0k⟩ := List.mem_map.mp hk
  cases hf : all.find? (fun q => decide (q.ownerId = k)) with
  | none =>
    have := List.find?_eq_none.mp hf q0 hq0
    simp [hq0k] at this
  | some q =>
    have hq := List.mem_of_find?_eq_some hf
    have hqk : q.ownerId = k := by simpa using List.find?_some hf
    obtain ⟨o, ho⟩ := Option.isSome_iff_exists.mp (hown q hq)
    refine ⟨o, by simp [referenceEntry, hf, ho], ?_⟩
    rw [← hqk, PopulatedInvoice.ownerId, ho]
    rfl

/-- One pass of the `forEach` body takes the reference grouping of the invoices seen so far
to the reference grouping with the next invoice added. -/
theorem formatStep_reference (d : Invoice → Int) (done : List PopulatedInvoice)
    (p : PopulatedInvoice) (hown : ∀ q ∈ done ++ [p], q.owner.isSome = true) :
    formatStep d (referenceGrouping d done) p = .ok (referenceGrouping d (done ++ [p])) := by
  obtain ⟨po, hpo⟩ := Option.isSome_iff_exists.mp
    (hown p (List.mem_append_right _ (List.mem_singleton.mpr rfl)))
  have hk : p.ownerId = some po._id := by
    rw [PopulatedInvoice.ownerId, hpo]
    rfl
  have hkeys : ∀ k2 ∈ firstSeen (done.map (fun q => q.ownerId)),
      ∃ o, (referenceEntry d done k2).owner = some o ∧ k2 = some o._id := by
    intro k2 h2
    exact referenceEntry_owner d done
      (fun q hq => hown q (List.mem_append_left _ hq)) k2 ((mem_firstSeen _ _).mp h2)
  simp only [referenceGrouping, List.map_append, List.map_cons, List.map_nil, firstSeen_concat]
  by_cases hmem : p.ownerId ∈ done.map (fun q => q.ownerId)
  · rw [if_pos hmem]
    have hmem2 : some po._id ∈ firstSeen (done.map (fun q => q.ownerId)) := by
      rw [← hk]
      exact (mem_firstSeen _ _).mpr hmem
    obtain ⟨i, hi1, hi2⟩ := findOwnerIndex_of_mem po (referenceEntry d done)
      (referenceEntry d (done ++ [p])) (addToOwner d p.invoice) _ hkeys (firstSeen_nodup _) hmem2
      (by
        intro k2 _ hne
        exact referenceEntry_concat_of_ne d done p k2 (fun h => hne (by rw [← h, hk])))
      (by
        rw [← hk]
        exact referenceEntry_concat_old d done p hmem)
    simp only [formatStep, hpo, hi1, hi2]
  · rw [if_neg hmem]
    have hnot : some po._id ∉ firstSeen (done.map (fun q => q.ownerId)) := by
      rw [← hk]
      exact fun h => hmem ((mem_firstSeen _ _).mp h)
    have hnone := findOwnerIndex_of_not_mem po (referenceEntry d done) _ hkeys hnot
    simp only [formatStep, hpo, hnone, List.map_append, List.map_cons, List.map_nil]
    have hold : ∀ k2 ∈ firstSeen (done.map (fun q => q.ownerId)),
        referenceEntry d (done ++ [p]) k2 = referenceEntry d done k2 := by
      intro k2 h2
      refine referenceEntry_concat_of_ne d done p k2 ?_
      intro h
      apply hmem
      rw [h]
      exact (mem_firstSeen _ _).mp h2
    rw [List.map_congr_left hold, referenceEntry_concat_new d done p hmem, hpo]

/-- The whole `forEach` pass, started from the reference grouping of `done`, ends in the
reference grouping of `done ++ rest`. -/
theorem foldlM_formatStep_reference (d : Invoice → Int) :
    ∀ (rest done : List PopulatedInvoice), (∀ q ∈ done ++ rest, q.owner.isSome = true) →
      rest.foldlM (formatStep d) (referenceGrouping d done) =
        .ok (referenceGrouping d (done ++ rest)) := by
  intro rest
  induction rest with
  | nil =>
    intro done _
    simp only [List.foldlM_nil, List.append_nil]
    rfl
  | cons p rest ih =>
    intro done hown
    have h1 : ∀ q ∈ done ++ [p], q.owner.isSome = true := by
      intro q hq
      apply hown
      rcases List.mem_append.mp hq with h | h
      · exact List.mem_append_left _ h
      · exact List.mem_append_right _ (List.mem_cons.mpr (Or.inl (List.mem_singleton.mp h)))
    have h2 : ∀ q ∈ (done ++ [p]) ++ rest, q.owner.isSome = true := by
      intro q hq
      apply hown
      simpa using hq
    rw [List.foldlM_cons, formatStep_reference d done p h1]
    have := ih (done ++ [p]) h2
    simpa using this

/-- The grouping `formatInvoices` builds is the reference grouping. -/
theorem formatInvoices_eq_reference (d : Invoice → Int) (all : List PopulatedInvoice)
    (hne : all ≠ []) (hown : ∀ q ∈ all, q.owner.isSome = true) :
    formatInvoices d all = .ok (referenceGrouping d all) := by
  have hemp : all.isEmpty = false := by
    cases all with
    | nil => exact absurd rfl hne
    | cons a l => rfl
  have := foldlM_formatStep_reference d all [] (by simpa using hown)
  simp only [formatInvoices, hemp, Bool.false_eq_true, if_false]
  simpa [referenceGrouping, firstSeen] using this

/-! ## Grouping by first occurrence is a partition -/

theorem firstSeen_pairwise_findIdx {α : Type} [DecidableEq α] :
    ∀ l : List α, (firstSeen l).Pairwise
      (fun a b => l.findIdx (fun x => decide (x = a)) < l.findIdx (fun x => decide (x = b))) := by
  intro l
  induction l with
  | nil => simp [firstSeen]
  | cons a l ih =>
    rw [firstSeen, List.pairwise_cons]
    constructor
    · intro b hb
      have hba : ¬ a = b := fun h => by simpa [h] using (List.mem_filter.mp hb).2
      simp [List.findIdx_cons, hba]
    · refine List.Pairwise.imp_of_mem ?_ (ih.filter _)
      intro x y hx hy hxy
      have hxa : ¬ a = x := fun h => by simpa [h] using (List.mem_filter.mp hx).2
      have hya : ¬ a = y := fun h => by simpa [h] using (List.mem_filter.mp hy).2
      simpa [List.findIdx_cons, hxa, hya] using hxy

theorem flatMap_add_perm {κ β : Type} [DecidableEq κ] (F : κ → List β) (k0 : κ) (x : β) :
    ∀ ks : List κ, ks.Nodup → k0 ∈ ks →
      List.Perm (ks.flatMap (fun k => F k ++ if k = k0 then [x] else []))
        (ks.flatMap F ++ [x]) := by
  intro ks
  induction ks with
  | nil => intro _ h; cases h
  | cons b ks ih =>
    intro hnd hk
    rw [List.nodup_cons] at hnd
    rw [List.flatMap_cons, List.flatMap_cons]
    by_cases hb : b = k0
    · have htail : ks.flatMap (fun k => F k ++ if k = k0 then [x] else []) = ks.flatMap F := by
        apply List.flatMap_congr
        intro k hkm
        have hne : ¬ k = k0 := fun h => hnd.1 (hb ▸ h ▸ hkm)
        simp [hne]
      rw [htail, if_pos hb, List.append_assoc, List.append_assoc]
      exact List.Perm.append_left _ List.perm_append_comm
    · have hk2 : k0 ∈ ks := by
        rcases List.mem_cons.mp hk with h | h
        · exact absurd h.symm hb
        · exact h
      rw [if_neg hb, List.append_nil, List.append_assoc]
      exact List.Perm.append_left _ (ih hnd.2 hk2)

/-- Listing a list key by key, keys in first-seen order, is a rearrangement of the list. -/
theorem flatMap_filter_firstSeen_perm {α κ : Type} [DecidableEq κ] (key : α → κ) :
    ∀ l : List α,
      List.Perm ((firstSeen (l.map key)).flatMap (fun k => l.filter (fun a => key a = k))) l := by
  intro l
  induction l using List.reverseRecOn with
  | nil => simp [firstSeen]
  | append_singleton l a ih =>
    rw [List.map_append, List.map_cons, List.map_nil, firstSeen_concat]
    have hfil : ∀ k, (l ++ [a]).filter (fun b => decide (key b = k)) =
        l.filter (fun b => decide (key b = k)) ++ if k = key a then [a] else [] := by
      intro k
      rw [List.filter_append]
      by_cases h : key a = k
      · simp [List.filter_cons, h]
      · have h2 : ¬ k = key a := fun h3 => h h3.symm
        simp [List.filter_cons, h, h2]
    simp only [hfil]
    by_cases hmem : key a ∈ l.map key
    · rw [if_pos hmem]
      refine (flatMap_add_perm (fun k => l.filter (fun b => decide (key b = k))) (key a) a _
        (firstSeen_nodup _) ((mem_firstSeen _ _).mpr hmem)).trans ?_
      exact List.Perm.append_right _ ih
    · rw [if_neg hmem, List.flatMap_append, List.flatMap_cons, List.flatMap_nil,
        List.append_nil]
      have hold : (firstSeen (l.map key)).flatMap
          (fun k => l.filter (fun b => decide (key b = k)) ++ if k = key a then [a] else []) =
          (firstSeen (l.map key)).flatMap (fun k => l.filter (fun b => decide (key b = k))) := by
        apply List.flatMap_congr
        intro k hk
        have hne : ¬ k = key a := by
          intro h
          apply hmem
          rw [← h]
          exact (mem_firstSeen _ _).mp hk
        simp [hne]
      have hnew : l.filter (fun b => decide (key b = key a)) = [] := by
        rw [List.filter_eq_nil_iff]
        intro b hb
        simp only [decide_eq_true_eq]
        intro h
        exact hmem (List.mem_map.mpr ⟨b, hb, h⟩)
      rw [hold, hnew, if_pos rfl, List.nil_append]
      exact List.Perm.append_right _ ih

/-- The lines of the reference grouping are a rearrangement of the lines of the input. -/
theorem reportLines_reference_perm (d : Invoice → Int) (all : List PopulatedInvoice) :
    List.Perm (reportLines (referenceGrouping d all))
      (all.map (fun p => invoiceLine d p.invoice)) := by
  have hinner : ∀ k, List.Perm
      ((referenceModels d all k).flatMap (fun m => m.invoice))
      ((all.filter (fun p => decide (p.ownerId = k))).map
        (fun p => invoiceLine d p.invoice)) := by
    intro k
    have h := flatMap_filter_firstSeen_perm (fun p : PopulatedInvoice => p.invoice.model)
      (all.filter (fun p => decide (p.ownerId = k)))
    have h2 := h.map (fun p => invoiceLine d p.invoice)
    refine List.Perm.trans (List.Perm.of_eq ?_) h2
    simp only [referenceModels, referenceLines, List.flatMap_map, List.map_flatMap,
      List.filter_filter]
    apply List.flatMap_congr
    intro m _
    congr 1
    apply List.filter_congr
    intro p _
    by_cases h1 : p.ownerId = k <;> by_cases h3 : p.invoice.model = m <;> simp [h1, h3]
  have houter := (flatMap_filter_firstSeen_perm (fun p : PopulatedInvoice => p.ownerId) all).map
    (fun p => invoiceLine d p.invoice)
  refine List.Perm.trans ?_ houter
  simp only [reportLines, referenceGrouping, referenceEntry, List.flatMap_map, List.map_flatMap]
  exact List.Perm.flatMap_left _ (fun k _ => hinner k)

/-! ## Claims about the report -/

theorem referenceGrouping_keys (d : Invoice → Int) (all : List PopulatedInvoice)
    (hown : ∀ q ∈ all, q.owner.isSome = true) :
    (referenceGrouping d all).map (fun g => g.owner.map (fun o => o._id)) =
      firstSeen (all.map (fun p => p.ownerId)) := by
  rw [referenceGrouping, List.map_map]
  conv_rhs => rw [← List.map_id (firstSeen (all.map (fun p => p.ownerId)))]
  apply List.map_congr_left
  intro k hk
  obtain ⟨o, ho, hko⟩ := referenceEntry_owner d all hown k ((mem_firstSeen _ _).mp hk)
  simp only [Function.comp, ho, Option.map_some', id_eq]
  exact hko.symm

/-- Every entry of the reference grouping holds, under each model, the lines of the
invoices of its owner and that model, in input order. -/
theorem referenceGrouping_lines (d : Invoice → Int) (all : List PopulatedInvoice)
    (hown : ∀ q ∈ all, q.owner.isSome = true) :
    ∀ g ∈ referenceGrouping d all,
      g.invoices = referenceModels d all (g.owner.map (fun o => o._id)) ∧
      ∀ m ∈ g.invoices,
        m.invoice =
          (all.filter (fun p => p.ownerId = g.owner.map (fun o => o._id) ∧
            p.invoice.model = m.model)).map (fun p => invoiceLine d p.invoice) := by
  intro g hg
  obtain ⟨k, hk, rfl⟩ := List.mem_map.mp hg
  obtain ⟨o, ho, hko⟩ := referenceEntry_owner d all hown k ((mem_firstSeen _ _).mp hk)
  have hkey : (referenceEntry d all k).owner.map (fun o => o._id) = k := by
    rw [ho, hko]
    rfl
  rw [hkey]
  refine ⟨rfl, ?_⟩
  intro m hm
  obtain ⟨mm, -, rfl⟩ := List.mem_map.mp hm
  rfl

/-- C13: grouping is a partition. For every non-empty list of invoices, each with its owner,
`formatInvoices`, and so `getAllInvoices` on a store whose populated invoices are that list,
returns the reference group-by on (owner, model); the lines of the report,
read entry by entry, are a rearrangement of the lines of the input (each input invoice
exactly once), and the lines under an owner entry and a model entry are those of the
invoices with that owner id and that model. -/
theorem formatInvoices_partition (d : Invoice → Int) (all : List PopulatedInvoice)
    (hne : all ≠ []) (hown : ∀ q ∈ all, q.owner.isSome = true) :
    ∃ report, formatInvoices d all = .ok report ∧
      (∀ s : Store, s.findInvoicesPopulated = all → getAllInvoices d s = .ok report) ∧
      report = referenceGrouping d all ∧
      List.Perm (reportLines report) (all.map (fun p => invoiceLine d p.invoice)) ∧
      ∀ g ∈ report, ∀ m ∈ g.invoices,
        m.invoice =
          (all.filter (fun p => p.ownerId = g.owner.map (fun o => o._id) ∧
            p.invoice.model = m.model)).map (fun p => invoiceLine d p.invoice) :=
  ⟨referenceGrouping d all, formatInvoices_eq_reference d all hne hown,
    fun s hs => by rw [getAllInvoices, hs]; exact formatInvoices_eq_reference d all hne hown,
    rfl, reportLines_reference_perm d all,
    fun g hg => (referenceGrouping_lines d all hown g hg).2⟩

/-- Witness of C13 on three sample invoices of two owners. -/
theorem formatInvoices_partition_witness :
    exPopulated ≠ [] ∧ (∀ q ∈ exPopulated, q.owner.isSome = true) ∧
    ∃ report, formatInvoices (fun _ => exNow) exPopulated = .ok report ∧
      List.Perm (reportLines report)
        (exPopulated.map (fun p => invoiceLine (fun _ => exNow) p.invoice)) := by
  have h1 : exPopulated ≠ [] := by simp [exPopulated]
  have h2 : ∀ q ∈ exPopulated, q.owner.isSome = true := by simp [exPopulated]
  obtain ⟨report, h3, -, -, h4, -⟩ :=
    formatInvoices_partition (fun _ => exNow) exPopulated h1 h2
  exact ⟨h1, h2, report, h3, h4⟩

/-- C14: grouping order. When `formatInvoices` returns a report for a list of invoices, each
with its owner, the owner entries are the distinct owner ids in order of first occurrence
in the input, none twice; in each owner entry the model entries are the distinct models of
that owner's invoices in order of first occurrence among them, none twice (`findIdx` is the
index of the first occurrence); and the lines under an owner and a model are those of the
matching invoices in input order. -/
theorem formatInvoices_first_seen_order (d : Invoice → Int) (all : List PopulatedInvoice)
    (report : List OwnerEntry) (hown : ∀ q ∈ all, q.owner.isSome = true)
    (hok : formatInvoices d all = .ok report) :
    (report.map (fun g => g.owner.map (fun o => o._id))).Nodup ∧
    (∀ k, k ∈ report.map (fun g => g.owner.map (fun o => o._id)) ↔
      k ∈ all.map (fun p => p.ownerId)) ∧
    (report.map (fun g => g.owner.map (fun o => o._id))).Pairwise
      (fun a b => (all.map (fun p => p.ownerId)).findIdx (fun x => decide (x = a)) <
        (all.map (fun p => p.ownerId)).findIdx (fun x => decide (x = b))) ∧
    ∀ g ∈ report,
      (g.invoices.map (fun m => m.model)).Nodup ∧
      (∀ m, m ∈ g.invoices.map (fun m => m.model) ↔
        m ∈ (all.filter (fun p => p.ownerId = g.owner.map (fun o => o._id))).map
          (fun p => p.invoice.model)) ∧
      (g.invoices.map (fun m => m.model)).Pairwise
        (fun a b =>
          ((all.filter (fun p => p.ownerId = g.owner.map (fun o => o._id))).map
            (fun p => p.invoice.model)).findIdx (fun x => decide (x = a)) <
          ((all.filter (fun p => p.ownerId = g.owner.map (fun o => o._id))).map
            (fun p => p.invoice.model)).findIdx (fun x => decide (x = b))) ∧
      ∀ m ∈ g.invoices,
        m.invoice =
          (all.filter (fun p => p.ownerId = g.owner.map (fun o => o._id) ∧
            p.invoice.model = m.model)).map (fun p => invoiceLine d p.invoice) := by
  have hne : all ≠ [] := by
    intro h
    rw [h] at hok
    simp [formatInvoices] at hok
  have hrep : report = referenceGrouping d all := by
    rw [formatInvoices_eq_reference d all hne hown] at hok
    exact (Except.ok.inj hok).symm
  subst hrep
  rw [referenceGrouping_keys d all hown]
  refine ⟨firstSeen_nodup _, fun k => mem_firstSeen k _, firstSeen_pairwise_findIdx _, ?_⟩
  intro g hg
  obtain ⟨hmodels, hlines⟩ := referenceGrouping_lines d all hown g hg
  have hmap : g.invoices.map (fun m => m.model) =
      firstSeen ((all.filter (fun p => p.ownerId = g.owner.map (fun o => o._id))).map
        (fun p => p.invoice.model)) := by
    rw [hmodels, referenceModels, List.map_map]
    conv_rhs => rw [← List.map_id (firstSeen _)]
    apply List.map_congr_left
    intro m _
    rfl
  rw [hmap]
  exact ⟨firstSeen_nodup _, fun m => mem_firstSeen m _, firstSeen_pairwise_findIdx _, hlines⟩

/-- Witness of C14 on three sample invoices of two owners: owner 1 comes first, then
owner 2. -/
theorem formatInvoices_first_seen_order_witness :
    (∀ q ∈ exPopulated, q.owner.isSome = true) ∧
    formatInvoices (fun _ => exNow) exPopulated =
      .ok (referenceGrouping (fun _ => exNow) exPopulated) ∧
    ((referenceGrouping (fun _ => exNow) exPopulated).map
      (fun g => g.owner.map (fun o => o._id))).Nodup := by
  have h1 : exPopulated ≠ [] := by simp [exPopulated]
  have h2 : ∀ q ∈ exPopulated, q.owner.isSome = true := by simp [exPopulated]
  have h3 := formatInvoices_eq_reference (fun _ => exNow) exPopulated h1 h2
  exact ⟨h2, h3,
    (formatInvoices_first_seen_order (fun _ => exNow) exPopulated _ h2 h3).1⟩

end InvoiceController
